import Mathlib

/-!
# Nidium `JSSocket`: framing and session lifecycle

A shallow embedding of `src/Binding/JSSocket.cpp`.

Conventions of the embedding

* Heap objects (`JSSocket` sessions, transport `ape_socket` handles) live in a
  `World`, addressed by natural numbers. A C pointer is an `Option Addr`,
  `none` being `NULL`. Object lifetimes are not modelled: every address
  designates an object.
* Bytes are natural numbers (`< 256` for real input; nothing depends on it).
* An `int` of the code (the engine's int32 values, the idle timeout) is an integer kept in
  the 32-bit range: what the code computes on it is reduced with `wrap32`.
* `m_Flags` is a bit mask whose masks (`kSocketType_*`) are declared in the
  header `JSSocket.h`; it is represented by one boolean per mask.
* Calls into the transport library are recorded, in order, in `World.calls`;
  what the transport answers is an argument of the operation that asks.
* Events handed to the host ("onread", "ondisconnect") are recorded, in
  order, in `World.events` at the place where the code looks the handler up
  and calls it. A handler is assumed not to change socket state.
* A text payload is represented by the bytes it is decoded from
  (`JSUtils::NewStringWithEncoding` is external), and the concatenation of
  two strings by the concatenation of those bytes.
* Undefined behaviour (a copy through a null line buffer, an access past the
  end of a block) is an `Except` error.
-/

namespace Nidium

/-! ## Data model -/

abbrev Addr := Nat

abbrev Byte := Nat

/-- The bits of `m_Flags` (`enum SocketType` of `JSSocket.h`), one boolean per mask. -/
structure Flags where
  binary : Bool
  readline : Bool
  server : Bool
  deriving DecidableEq

/-- The anonymous struct `m_LineBuffer`: `data` is the allocated block (`none` is `NULL`),
`pos` the occupancy. -/
structure LineBuffer where
  data : Option (List Byte)
  pos : Nat
  deriving DecidableEq

/-- The fields of a `JSSocket` object; `m_JSObject` is the host-side object of `JSExposer`,
the value of `getJSObject()`. -/
structure JSSocket where
  m_JSObject : Option Addr
  m_Host : List Byte
  m_Port : Nat
  m_Socket : Option Addr
  m_Flags : Flags
  m_FrameDelimiter : Byte
  m_ParentServer : Option Addr
  m_TCPTimeout : Int
  m_Encoding : Option (List Byte)
  m_LineBuffer : LineBuffer
  deriving DecidableEq

/-- The functions this file installs in `socket->callbacks.on_disconnect`. -/
inductive DisconnectCallback where
  | wrapper_disconnect
  | wrapper_client_disconnect
  deriving DecidableEq

/-- The part of the transport's `ape_socket` this file reads and writes: the back-reference
`ctx` to the session and the disconnect callback. -/
structure ape_socket where
  ctx : Option Addr
  on_disconnect : Option DisconnectCallback
  deriving DecidableEq

inductive Proto where
  | TCP
  | UDP
  | SSL
  | UNIX
  deriving DecidableEq

/-- A call into the transport library, with the handle it is given (`none` is `NULL`). -/
inductive TransportCall where
  | socket_new (proto : Proto)
  | socket_write (h : Option Addr) (data : List Byte)
  | socket_shutdown (h : Option Addr)
  | socket_shutdown_now (h : Option Addr)
  | socket_setTimeout (h : Option Addr) (secs : Int)
  | socket_listen (h : Option Addr) (port : Nat) (host : List Byte)
  | socket_connect (h : Option Addr) (port : Nat) (host : List Byte) (localport : Int)
  | socket_write_udp (h : Option Addr) (data : List Byte) (ip : List Byte) (port : Int)
  | sendfile (h : Option Addr) (file : List Byte)
  | socket_enable_lz4 (h : Option Addr)
  deriving DecidableEq

/-- The data argument of an "onread" call: an `ArrayBuffer` holding a copy of the bytes, or
a string decoded from the bytes. -/
inductive Payload where
  | arrayBuffer (bytes : List Byte)
  | string (bytes : List Byte)
  deriving DecidableEq

def Payload.bytes : Payload → List Byte
  | .arrayBuffer b => b
  | .string b => b

/-- A call of a host-side handler, by the session that makes it. -/
inductive Event where
  | onread (source : Addr) (payload : Payload)
  | ondisconnect (source : Addr)
  | onaccept (server : Addr) (client : Addr)
  deriving DecidableEq

/-- The output of `JS_ReportWarning` and `JS_ReportError`. -/
inductive Diag where
  | warning (msg : String)
  | error (msg : String)
  deriving DecidableEq

inductive Fault where
  | nullPointer
  | outOfBounds
  | diverges
  deriving DecidableEq

structure World where
  objs : Addr → JSSocket
  socks : Addr → ape_socket
  events : List Event
  calls : List TransportCall
  diags : List Diag

/-- The frames handed to "onread", in order. -/
def frames : List Event → List (List Byte)
  | [] => []
  | .onread _ p :: es => p.bytes :: frames es
  | _ :: es => frames es

def World.setObj (w : World) (a : Addr) (s : JSSocket) : World :=
  { w with objs := Function.update w.objs a s }

def World.setSock (w : World) (h : Addr) (s : ape_socket) : World :=
  { w with socks := Function.update w.socks h s }

def World.setLineBuffer (w : World) (a : Addr) (lb : LineBuffer) : World :=
  w.setObj a { w.objs a with m_LineBuffer := lb }

def World.dispatch (w : World) (e : Event) : World :=
  { w with events := w.events ++ [e] }

def World.call (w : World) (c : TransportCall) : World :=
  { w with calls := w.calls ++ [c] }

def World.report (w : World) (d : Diag) : World :=
  { w with diags := w.diags ++ [d] }

/-- The world in which the session `a` has the line buffer `lb` and the events `es` have been
dispatched after those of `w`; everything else is as in `w`. -/
def World.put (w : World) (a : Addr) (lb : LineBuffer) (es : List Event) : World :=
  { w with
    objs := Function.update w.objs a { w.objs a with m_LineBuffer := lb }
    events := w.events ++ es }

/-! ## `JSSocket` -/

/-- The constructor `JSSocket::JSSocket(obj, cx, host, port)`. -/
def JSSocket.new (obj : Option Addr) (host : List Byte) (port : Nat) : JSSocket :=
  { m_JSObject := obj
    m_Host := host
    m_Port := port
    m_Socket := none
    m_Flags := { binary := false, readline := false, server := false }
    m_FrameDelimiter := 10
    m_ParentServer := none
    m_TCPTimeout := 0
    m_Encoding := none
    m_LineBuffer := { data := none, pos := 0 } }

def getJSObject (w : World) (this : Addr) : Option Addr :=
  (w.objs this).m_JSObject

/-- Modelled from the spec: `getFlags()` is declared in `JSSocket.h`, which is not among the
sources. A server-accepted child has no mode of its own (it is built with `m_Flags(0)` and
`nidium_socket_wrapper_onaccept` tests `sobj->getFlags()` right after setting the parent):
its flags are those of its parent server. -/
def getFlags (w : World) (this : Addr) : Flags :=
  match (w.objs this).m_ParentServer with
  | some p => (w.objs p).m_Flags
  | none => (w.objs this).m_Flags

/-- Modelled from the spec: `getFrameDelimiter()` is declared in `JSSocket.h`; like the
flags, a child's delimiter is that of its parent server. -/
def getFrameDelimiter (w : World) (this : Addr) : Byte :=
  match (w.objs this).m_ParentServer with
  | some p => (w.objs p).m_FrameDelimiter
  | none => (w.objs this).m_FrameDelimiter

/-- Modelled from the spec: `isClientFromOwnServer()` is declared in `JSSocket.h`: the
session was produced by a server's accept, that is, it has a parent server. -/
def isClientFromOwnServer (w : World) (this : Addr) : Bool :=
  (w.objs this).m_ParentServer.isSome

def getParentServer (w : World) (this : Addr) : Option Addr :=
  (w.objs this).m_ParentServer

def isAttached (w : World) (this : Addr) : Bool :=
  (w.objs this).m_Socket.isSome

def isJSCallable (w : World) (this : Addr) : Bool :=
  match (w.objs this).m_ParentServer with
  | some p =>
    if (getJSObject w p).isNone then false else (getJSObject w this).isSome
  | none => (getJSObject w this).isSome

def dettach (w : World) (this : Addr) : World :=
  match (w.objs this).m_Socket with
  | some h =>
    (w.setSock h { w.socks h with ctx := none }).setObj this
      { w.objs this with m_Socket := none }
  | none => w

/-- The method `JSSocket::write(data, len, data_type)`; `ret` is what `APE_socket_write`
answers when it is called. -/
def JSSocket.write (w : World) (this : Addr) (data : List Byte) (ret : Int) : Int × World :=
  match (w.objs this).m_Socket with
  | none => (0, w)
  | some h =>
    if (w.socks h).ctx.isNone then (0, w)
    else (ret, w.call (.socket_write (some h) data))

def disconnect (w : World) (this : Addr) : World :=
  w.call (.socket_shutdown_now (w.objs this).m_Socket)

def shutdown (w : World) (this : Addr) : World :=
  match (w.objs this).m_Socket with
  | none => w
  | some h =>
    if (w.socks h).ctx.isNone then w
    else w.call (.socket_shutdown (some h))

/-- The method `JSSocket::readFrame(buf, len)`: the frame is `buf`, preceded by the line
buffer's `pos` bytes when there are any in line-delimited mode, in which case the buffer is
emptied. (`PACK_TCP` and `FLUSH_TCP` act on the transport's descriptor and are left out.) -/
def readFrame (w : World) (this : Addr) (buf : List Byte) : Except Fault World :=
  let lb := (w.objs this).m_LineBuffer
  if lb.pos ≠ 0 ∧ (getFlags w this).readline = true then
    match lb.data with
    | none => .error .nullPointer
    | some mem =>
      if lb.pos ≤ mem.length then
        .ok ((w.setLineBuffer this { lb with pos := 0 }).dispatch
          (.onread this (.string (mem.take lb.pos ++ buf))))
      else .error .outOfBounds
  else .ok (w.dispatch (.onread this (.string buf)))

/-- The offset of the first `c` in the block, as `memchr` finds it. -/
def memchr (c : Byte) : List Byte → Option Nat
  | [] => none
  | b :: bs => if b = c then some 0 else (memchr c bs).map Nat.succ

/-- The block `dst` after `memcpy(dst + off, src, src.length)`. -/
def memcpy (dst : List Byte) (off : Nat) (src : List Byte) : List Byte :=
  dst.take off ++ src ++ dst.drop (off + src.length)

/-- The largest `size_t`, the value of `tlen--` at zero. -/
def SIZE_MAX : Nat := 2 ^ 64 - 1

/-- The delimiter-scanning `while` loop of `onRead`. The state is the world, the bytes at
`pBuf` up to the end of the chunk, and `tlen`; the result is the state at loop exit. Each
turn of the loop uses one unit of `fuel`. A `memchr` that runs past the end of the chunk
without finding the delimiter is an out-of-bounds read. -/
def onRead.scan (this : Addr) : Nat → World → List Byte → Nat →
    Except Fault (World × List Byte × Nat)
  | 0, _, _, _ => .error .diverges
  | fuel + 1, w, pBuf, tlen =>
    if tlen > 0 then
      match memchr (getFrameDelimiter w this) (pBuf.take tlen) with
      | some pLen =>
        let tlen1 := tlen - pLen
        if tlen1 > 0 then
          match readFrame w this (pBuf.take pLen) with
          | .ok w1 => onRead.scan this fuel w1 (pBuf.drop (pLen + 1)) (tlen1 - 1)
          | .error e => .error e
        else onRead.scan this fuel w pBuf SIZE_MAX
      | none => if tlen ≤ pBuf.length then .ok (w, pBuf, tlen) else .error .outOfBounds
    else .ok (w, pBuf, tlen)

/-- The method `JSSocket::onRead(data, len)`; `cap` is `SOCKET_LINEBUFFER_MAX`, a constant of
`JSSocket.h`. The sum `tlen + m_LineBuffer.pos` is taken in the naturals: both terms are sizes
of blocks in memory. -/
def onRead (cap : Nat) (w : World) (this : Addr) (data : List Byte) : Except Fault World :=
  if isJSCallable w this = false then .ok w
  else if (getFlags w this).binary = true then
    .ok (w.dispatch (.onread this (.arrayBuffer data)))
  else if (getFlags w this).readline = true then
    match onRead.scan this (data.length + 1) w data data.length with
    | .error e => .error e
    | .ok (w1, pBuf, tlen) =>
      let lb := (w1.objs this).m_LineBuffer
      if tlen ≠ 0 ∧ tlen + lb.pos ≤ cap then
        match lb.data with
        | none => .error .nullPointer
        | some mem =>
          if lb.pos + tlen ≤ mem.length ∧ tlen ≤ pBuf.length then
            .ok (w1.setLineBuffer this
              { data := some (memcpy mem lb.pos (pBuf.take tlen)), pos := lb.pos + tlen })
          else .error .outOfBounds
      else if tlen ≠ 0 then .ok (w1.setLineBuffer this { lb with pos := 0 })
      else .ok w1
  else .ok (w.dispatch (.onread this (.string data)))

/-- The transport delivers the chunks in order, each to `onRead`. -/
def feed (cap : Nat) (this : Addr) : World → List (List Byte) → Except Fault World
  | w, [] => .ok w
  | w, c :: cs =>
    match onRead cap w this c with
    | .ok w1 => feed cap this w1 cs
    | .error e => .error e

/-! ## Host-facing properties and functions

A native function is given the session `this` that `NIDIUM_JS_PROLOGUE_CLASS` extracts from
its receiver (a call on a receiver of another class is rejected by that macro before any of
the code below runs), and the argument list. -/

/-- The 32-bit two's complement integer congruent to `x`: an `x` in the int32 range is
itself. -/
def wrap32 (x : Int) : Int :=
  (x + 2 ^ 31) % 2 ^ 32 - 2 ^ 31

/-- A value of the scripting engine, as far as this file tells values apart. A string carries
the bytes `JSAutoByteString` yields for it; an object carries its bytes when it is an
`ArrayBuffer`. An int32 value is the 32-bit integer its field reduces to; a double carries the
64 bits of its IEEE 754 representation. -/
inductive JSVal where
  | undefined
  | null
  | boolean (b : Bool)
  | int32 (i : Int)
  | double (bits : Nat)
  | string (bytes : List Byte)
  | object (arrayBuffer : Option (List Byte))
  deriving DecidableEq

def JSVal.isBoolean : JSVal → Bool
  | .boolean _ => true
  | _ => false

def JSVal.toBoolean : JSVal → Bool
  | .boolean b => b
  | _ => false

def JSVal.isInt32 : JSVal → Bool
  | .int32 _ => true
  | _ => false

def JSVal.isNumber : JSVal → Bool
  | .int32 _ => true
  | .double _ => true
  | _ => false

/-- The accessor `toInt32()`: the 32-bit integer of an int32 value. On a double, where the
accessor is outside the engine's contract, it reads the low 32 bits of the representation. -/
def JSVal.toInt32 : JSVal → Int
  | .int32 i => wrap32 i
  | .double bits => wrap32 (bits % 2 ^ 32)
  | _ => 0

/-- The number a numeric value stands for: the 32-bit integer of an int32 value, and for a
double the finite number its IEEE 754 binary64 bits encode (sign, 11 bits of exponent, 52 bits
of fraction); `none` for an infinity, a NaN, and a value that is no number. -/
def JSVal.numberValue : JSVal → Option ℚ
  | .int32 i => some (wrap32 i)
  | .double bits =>
    let b : Nat := bits % 2 ^ 64
    let sign : ℚ := if b / 2 ^ 63 = 1 then -1 else 1
    let e : Nat := b / 2 ^ 52 % 2 ^ 11
    let m : Nat := b % 2 ^ 52
    if e = 2047 then none
    else if e = 0 then some (sign * (m : ℚ) / 2 ^ 1074)
    else some (sign * ((2 ^ 52 + m : Nat) : ℚ) * 2 ^ e / 2 ^ 1075)
  | _ => none

/-- The bytes of a C string up to its terminating NUL. -/
def cstr (s : List Byte) : List Byte :=
  s.takeWhile (fun b => b ≠ 0)

def toLower (b : Byte) : Byte :=
  if 65 ≤ b ∧ b ≤ 90 then b + 32 else b

/-- The test `strncasecmp(lit, s, n) == 0` for a lower-case literal `lit` of `n` bytes. -/
def strncasecmp_eq (lit : List Byte) (s : List Byte) (n : Nat) : Bool :=
  ((cstr s).take n).map toLower = lit.take n

/-- Modelled from the spec: `APE_ABS` is a macro of the transport library, which is not among
the sources: the absolute value, computed on an `int`. The negation is a 32-bit one, so the
smallest int32, which has no opposite, stays as it is. -/
def APE_ABS (x : Int) : Int :=
  if x < 0 then wrap32 (-x) else x

inductive SocketProp where
  | Binary
  | Readline
  | Encoding
  | Timeout
  | END
  deriving DecidableEq

/-- What a property setter leaves: its return value, the value in `vp`, the world. -/
structure SetResult where
  ok : Bool
  vp : JSVal
  world : World

/-- What a native function leaves: its return value (`false` when an error was reported),
the value in `args.rval()`, the world. -/
structure CallResult where
  ok : Bool
  rval : JSVal
  world : World

/-- The block `malloc` returns for the line buffer: `cap` bytes; their initial values are
indeterminate and never read. -/
def mallocLineBuffer (cap : Nat) : List Byte :=
  List.replicate cap 0

/-- The getter `nidium_socket_prop_get`. -/
def nidium_socket_prop_get (w : World) (this : Option Addr) (id : SocketProp) (vp : JSVal) :
    SetResult :=
  match this with
  | none => { ok := false, vp := vp, world := w.report (.error "Invalid socket object") }
  | some nsocket =>
    let self := w.objs nsocket
    match id with
    | .Binary => { ok := true, vp := .boolean self.m_Flags.binary, world := w }
    | .Readline => { ok := true, vp := .boolean self.m_Flags.readline, world := w }
    | .Encoding =>
      { ok := true
        vp := .string (match self.m_Encoding with
          | some e => e
          | none => [97, 115, 99, 105, 105])
        world := w }
    | .Timeout => { ok := true, vp := .int32 self.m_TCPTimeout, world := w }
    | .END => { ok := true, vp := vp, world := w }

/-- The setter `nidium_socket_prop_set`; `cap` is `SOCKET_LINEBUFFER_MAX`, `timeoutOk` what
`APE_socket_setTimeout` answers when it is called. -/
def nidium_socket_prop_set (cap : Nat) (w : World) (this : Option Addr) (id : SocketProp)
    (vp : JSVal) (timeoutOk : Bool) : SetResult :=
  match this with
  | none => { ok := false, vp := vp, world := w.report (.error "Invalid socket object") }
  | some nsocket =>
    let self := w.objs nsocket
    match id with
    | .Binary =>
      if vp.isBoolean then
        { ok := true, vp := vp
          world := w.setObj nsocket
            { self with m_Flags := { self.m_Flags with binary := vp.toBoolean } } }
      else { ok := true, vp := .boolean false, world := w }
    | .Readline =>
      let isactive := (vp.isBoolean && vp.toBoolean) || vp.isInt32
      if isactive then
        let lb : LineBuffer :=
          if self.m_LineBuffer.data.isNone then
            { data := some (mallocLineBuffer cap), pos := 0 }
          else self.m_LineBuffer
        { ok := true, vp := vp
          world := w.setObj nsocket
            { self with
              m_Flags := { self.m_Flags with readline := true }
              m_LineBuffer := lb
              m_FrameDelimiter := if vp.isBoolean then 10 else (vp.toInt32 % 256).toNat } }
      else
        { ok := true, vp := .boolean false
          world := w.setObj nsocket
            { self with m_Flags := { self.m_Flags with readline := false } } }
    | .Encoding =>
      match vp with
      | .string enc =>
        { ok := true, vp := vp
          world := w.setObj nsocket { self with m_Encoding := some (cstr enc) } }
      | _ => { ok := true, vp := vp, world := w }
    | .Timeout =>
      if vp.isNumber then
        let t := APE_ABS vp.toInt32
        let w1 := w.setObj nsocket { self with m_TCPTimeout := t }
        match self.m_Socket with
        | some h =>
          let w2 := w1.call (.socket_setTimeout (some h) t)
          { ok := true, vp := vp
            world := if timeoutOk then w2
              else w2.report (.warning "Couldn't set TCP timeout on socket") }
        | none => { ok := true, vp := vp, world := w1 }
      else { ok := true, vp := vp, world := w }
    | .END => { ok := true, vp := vp, world := w }

/-- Modelled from the spec: `NIDIUM_JS_CHECK_ARGS(name, n)` is a macro of a header that is
not among the sources: a call with fewer than `n` arguments is rejected with an error. -/
def checkArgs (args : List JSVal) (n : Nat) : Bool :=
  n ≤ args.length

def argAt (args : List JSVal) (i : Nat) : JSVal :=
  args.getD i .undefined

/-- The shared body of `nidium_socket_write` and `nidium_socket_client_write` (the two
functions differ in the class of the receiver only); `ret` is what `APE_socket_write`
answers when it is called. -/
def socketWriteBody (w : World) (this : Addr) (args : List JSVal) (ret : Int) : CallResult :=
  if checkArgs args 1 = false then
    { ok := false, rval := .undefined, world := w.report (.error "write: missing argument") }
  else if isAttached w this = false then
    { ok := true, rval := .int32 (-1)
      world := w.report (.warning "socket.write() Invalid socket (not connected)") }
  else
    match argAt args 0 with
    | .string s =>
      let r := JSSocket.write w this (cstr s) ret
      { ok := true, rval := .int32 r.1, world := r.2 }
    | .object (some bytes) =>
      let r := JSSocket.write w this bytes ret
      { ok := true, rval := .int32 r.1, world := r.2 }
    | _ =>
      { ok := false, rval := .undefined
        world := w.report
          (.error "write() invalid data (must be either a string or an ArrayBuffer)") }

def nidium_socket_write (w : World) (this : Addr) (args : List JSVal) (ret : Int) :
    CallResult :=
  socketWriteBody w this args ret

def nidium_socket_client_write (w : World) (this : Addr) (args : List JSVal) (ret : Int) :
    CallResult :=
  socketWriteBody w this args ret

/-- The shared body of `nidium_socket_close` and `nidium_socket_client_close`. -/
def socketCloseBody (w : World) (this : Addr) : CallResult :=
  if isAttached w this = false then
    { ok := true, rval := .int32 (-1)
      world := w.report (.warning "socket.close() Invalid socket (not connected)") }
  else { ok := true, rval := .undefined, world := shutdown w this }

def nidium_socket_close (w : World) (this : Addr) : CallResult :=
  socketCloseBody w this

def nidium_socket_client_close (w : World) (this : Addr) : CallResult :=
  socketCloseBody w this

/-- The function `nidium_socket_sendto`; the receiver is a `Socket` (the code rejects any
other with `JS_InstanceOf`), and `this` is its private, which the code tests for `NULL`
itself. -/
def nidium_socket_sendto (w : World) (this : Option Addr) (args : List JSVal) : CallResult :=
  if checkArgs args 3 = false then
    { ok := false, rval := .undefined, world := w.report (.error "sendto: missing argument") }
  else
    match this with
    | none => { ok := true, rval := .undefined, world := w }
    | some nsocket =>
      if isAttached w nsocket = false then { ok := true, rval := .undefined, world := w }
      else if (w.objs nsocket).m_Flags.server = false then
        { ok := false, rval := .undefined
          world := w.report (.error "sendto() is only available on listening socket") }
      else
        match argAt args 0 with
        | .string ip =>
          let port : Int := if (argAt args 1).isNumber then (argAt args 1).toInt32 % 65536 else 0
          match argAt args 2 with
          | .string s =>
            { ok := true, rval := .undefined
              world := w.call (.socket_write_udp (w.objs nsocket).m_Socket s (cstr ip) port) }
          | .object (some bytes) =>
            { ok := true, rval := .undefined
              world := w.call
                (.socket_write_udp (w.objs nsocket).m_Socket bytes (cstr ip) port) }
          | _ =>
            { ok := false, rval := .undefined
              world := w.report
                (.error "sendTo() invalid data (must be either a string or an ArrayBuffer)") }
        | _ =>
          { ok := false, rval := .undefined
            world := w.report (.error "sendto() IP must be a string") }

/-- The function `nidium_socket_client_sendFile`; `file` is what `JS_ConvertArguments`
makes of the argument (`none` when the conversion fails). -/
def nidium_socket_client_sendFile (w : World) (this : Addr) (args : List JSVal)
    (file : Option (List Byte)) : CallResult :=
  if checkArgs args 1 = false then
    { ok := false, rval := .undefined
      world := w.report (.error "sendFile: missing argument") }
  else if isAttached w this = false then
    { ok := true, rval := .int32 (-1)
      world := w.report (.warning "socket.sendFile() Invalid socket (not connected)") }
  else
    match file with
    | none => { ok := false, rval := .undefined, world := w }
    | some f =>
      { ok := true, rval := .undefined
        world := w.call (.sendfile (w.objs this).m_Socket (cstr f)) }

/-- The protocol argument of `listen`: the protocol and whether LZ4 is asked for. -/
def listenProtocol (args : List JSVal) : Proto × Bool :=
  match args with
  | .string s :: _ =>
    if strncasecmp_eq [117, 100, 112] s 3 then (.UDP, false)
    else if strncasecmp_eq [116, 99, 112, 45, 108, 122, 52] s 7 then (.TCP, true)
    else (.TCP, false)
  | _ => (.TCP, false)

/-- The protocol argument of `connect`. -/
def connectProtocol (args : List JSVal) : Proto × Bool :=
  match args with
  | .string s :: _ =>
    if strncasecmp_eq [117, 100, 112] s 3 then (.UDP, false)
    else if strncasecmp_eq [115, 115, 108] s 3 then (.SSL, false)
    else if strncasecmp_eq [117, 110, 105, 120] s 4 then (.UNIX, false)
    else if strncasecmp_eq [116, 99, 112, 45, 108, 122, 52] s 7 then (.TCP, true)
    else (.TCP, false)
  | _ => (.TCP, false)

def connectLocalPort (args : List JSVal) : Int :=
  match args with
  | .string _ :: a :: _ => if a.isNumber then a.toInt32 % 65536 else 0
  | _ => 0

/-- The timeout is handed to the new handle when it is not zero. -/
def applyTimeout (w : World) (this : Addr) (h : Addr) (timeoutOk : Bool) : World :=
  if (w.objs this).m_TCPTimeout ≠ 0 then
    let w1 := w.call (.socket_setTimeout (some h) (w.objs this).m_TCPTimeout)
    if timeoutOk then w1 else w1.report (.warning "Couldn't set TCP timeout on socket")
  else w

/-- The function `nidium_socket_listen`. The transport's answers are arguments: `newSock` is
what `APE_socket_new` returns, `timeoutOk` what `APE_socket_setTimeout` answers, `listenRet`
what `APE_socket_listen` returns. -/
def nidium_socket_listen (w : World) (this : Addr) (args : List JSVal)
    (newSock : Option Addr) (timeoutOk : Bool) (listenRet : Int) : CallResult :=
  if isAttached w this then { ok := true, rval := .undefined, world := w }
  else
    let w0 := w.call (.socket_new (listenProtocol args).1)
    match newSock with
    | none =>
      { ok := false, rval := .undefined, world := w0.report (.error "Failed to create socket") }
    | some h =>
      let w1 := w0.setSock h
        { ctx := some this, on_disconnect := some .wrapper_client_disconnect }
      let w2 := w1.setObj this { w1.objs this with m_Socket := some h }
      let w3 := applyTimeout w2 this h timeoutOk
      let w4 := w3.call (.socket_listen (some h) (w3.objs this).m_Port (w3.objs this).m_Host)
      if listenRet = -1 then
        { ok := false, rval := .undefined
          world := w4.report (.error "Can't listen on socket") }
      else
        let w5 := if (listenProtocol args).2 then w4.call (.socket_enable_lz4 (some h)) else w4
        { ok := true, rval := .object none
          world := w5.setObj this
            { w5.objs this with m_Flags := { (w5.objs this).m_Flags with server := true } } }

/-- The function `nidium_socket_connect`, with the transport's answers as arguments;
`connectRet` is what `APE_socket_connect` returns. -/
def nidium_socket_connect (w : World) (this : Addr) (args : List JSVal)
    (newSock : Option Addr) (timeoutOk : Bool) (connectRet : Int) : CallResult :=
  if isAttached w this then { ok := false, rval := .undefined, world := w }
  else
    let w0 := w.call (.socket_new (connectProtocol args).1)
    match newSock with
    | none =>
      { ok := false, rval := .undefined, world := w0.report (.error "Failed to create socket") }
    | some h =>
      let w1 := w0.setSock h { ctx := some this, on_disconnect := some .wrapper_disconnect }
      let w2 := w1.setObj this { w1.objs this with m_Socket := some h }
      let w3 := applyTimeout w2 this h timeoutOk
      let w4 := if (connectProtocol args).2 then w3.call (.socket_enable_lz4 (some h)) else w3
      let w5 := w4.call (.socket_connect (some h) (w4.objs this).m_Port (w4.objs this).m_Host
        (connectLocalPort args))
      if connectRet = -1 then
        { ok := false, rval := .undefined
          world := w5.report (.error "Can't connect on socket") }
      else { ok := true, rval := .object none, world := w5 }

/-! ## Transport callbacks -/

/-- The callback `nidium_socket_wrapper_onaccept`: `sobj` is the address of the new
`JSSocket`, `jclient` its host-side object, `ip` the peer's address, `lz4` whether the
server socket compresses. -/
def nidium_socket_wrapper_onaccept (cap : Nat) (w : World) (socket_server socket_client : Addr)
    (sobj jclient : Addr) (ip : List Byte) (lz4 : Bool) : World :=
  match (w.socks socket_server).ctx with
  | none => w
  | some nsocket =>
    if isJSCallable w nsocket = false then w
    else
      let w1 := w.setObj sobj
        { JSSocket.new (some jclient) ip 0 with
          m_ParentServer := some nsocket
          m_Socket := some socket_client }
      let w2 :=
        if (getFlags w1 sobj).readline then
          w1.setLineBuffer sobj { data := some (mallocLineBuffer cap), pos := 0 }
        else w1
      let w3 := w2.setSock socket_client { w2.socks socket_client with ctx := some sobj }
      let w4 := if lz4 then w3.call (.socket_enable_lz4 (some socket_client)) else w3
      w4.dispatch (.onaccept nsocket sobj)

def nidium_socket_wrapper_client_read (cap : Nat) (w : World) (socket_client : Addr)
    (data : List Byte) : Except Fault World :=
  match (w.socks socket_client).ctx with
  | none => .ok w
  | some client => onRead cap w client data

def nidium_socket_wrapper_read (cap : Nat) (w : World) (s : Addr) (data : List Byte) :
    Except Fault World :=
  match (w.socks s).ctx with
  | none => .ok w
  | some nsocket =>
    if isJSCallable w nsocket = false then .ok w else onRead cap w nsocket data

/-- The callback `nidium_socket_wrapper_client_disconnect`, the disconnect callback of the
sockets a server accepts. Building the handler's argument dereferences the child's host-side
object. -/
def nidium_socket_wrapper_client_disconnect (w : World) (socket_client : Addr) :
    Except Fault World :=
  match (w.socks socket_client).ctx with
  | none => .ok w
  | some csocket =>
    if isClientFromOwnServer w csocket = false then .ok w
    else
      match getParentServer w csocket with
      | none => .ok w
      | some ssocket =>
        if isJSCallable w ssocket = false then .ok w
        else
          match getJSObject w csocket with
          | none => .error .nullPointer
          | some _ => .ok ((dettach w csocket).dispatch (.ondisconnect csocket))

/-- The callback `nidium_socket_wrapper_disconnect`, the disconnect callback of the sockets
`connect` creates. -/
def nidium_socket_wrapper_disconnect (w : World) (s : Addr) : World :=
  match (w.socks s).ctx with
  | none => w
  | some nsocket =>
    if isJSCallable w nsocket = false then w
    else (dettach w nsocket).dispatch (.ondisconnect nsocket)

/-- The transport reports that the handle `h` is disconnected: it runs the handle's
disconnect callback. -/
def transportDisconnected (w : World) (h : Addr) : Except Fault World :=
  match (w.socks h).on_disconnect with
  | some .wrapper_disconnect => .ok (nidium_socket_wrapper_disconnect w h)
  | some .wrapper_client_disconnect => nidium_socket_wrapper_client_disconnect w h
  | none => .ok w

/-! ## Reference framing -/

/-- The complete lines of a stream: the frames obtained by cutting `cur ++ s` at each
delimiter `d` of `s`, the delimiter left out, without what follows the last delimiter. -/
def splitLines (d : Byte) : List Byte → List Byte → List (List Byte)
  | _, [] => []
  | cur, b :: bs => if b = d then cur :: splitLines d [] bs else splitLines d (cur ++ [b]) bs

/-- What follows the last delimiter of `cur ++ s`: the undelimited remainder. -/
def pending (d : Byte) : List Byte → List Byte → List Byte
  | cur, [] => cur
  | cur, b :: bs => if b = d then pending d [] bs else pending d (cur ++ [b]) bs

/-- The "onread" event of the session `this` for a text frame. -/
def textFrame (this : Addr) (f : List Byte) : Event :=
  .onread this (.string f)

/-! ## Concrete worlds -/

/-- A world just after `new Socket(host, port)`: the session is as its constructor leaves
it, with a live host-side object, and no transport handle refers to a session. -/
def freshWorld : World :=
  { objs := fun _ => JSSocket.new (some 1) [49, 50, 55, 46, 48, 46, 48, 46, 49] 8080
    socks := fun _ => { ctx := none, on_disconnect := none }
    events := []
    calls := []
    diags := [] }

/-- The fresh world after `socket.readline = true` on the session at address 0: line-delimited
mode, delimiter `\n`, an empty line buffer of `cap` bytes. -/
def lineWorld (cap : Nat) : World :=
  (nidium_socket_prop_set cap freshWorld (some 0) .Readline (.boolean true) true).world

/-- The world `lineWorld cap` after `socket.binary = true` on the same session: both flags
set. -/
def binaryLineWorld (cap : Nat) : World :=
  (nidium_socket_prop_set cap (lineWorld cap) (some 0) .Binary (.boolean true) true).world

/-- The fresh world after a successful `socket.connect()` on the session at address 0: the
transport hands out the handle 5. -/
def connectedWorld : World :=
  (nidium_socket_connect freshWorld 0 [] (some 5) true 0).world

/-- The fresh world after a successful `socket.listen()` on the session at address 0: the
transport hands out the handle 5. -/
def listeningWorld : World :=
  (nidium_socket_listen freshWorld 0 [] (some 5) true 0).world

/-- The listening world after the server has accepted a peer: the peer's handle is 6, the
child session is built at address 1 with the host-side object 2. -/
def acceptedWorld (cap : Nat) : World :=
  nidium_socket_wrapper_onaccept cap listeningWorld 5 6 1 2 [49, 48, 46, 48, 46, 48, 46, 50]
    false

/-- The accepted world once the server's host-side object is gone, the child being still
attached. -/
def orphanWorld (cap : Nat) : World :=
  (acceptedWorld cap).setObj 0 { (acceptedWorld cap).objs 0 with m_JSObject := none }

/-- The transport accepts a peer on the listening handle `socket_server`: it creates the
peer's handle `socket_client` with the callbacks of the listening handle, then runs the accept
callback. (The callbacks `listen` installs are those of the accepted sockets: they take the
child session from `socket_client->ctx`; `nidium_socket_wrapper_onaccept` installs none.) -/
def transportAccepted (cap : Nat) (w : World) (socket_server socket_client : Addr)
    (sobj jclient : Addr) (ip : List Byte) (lz4 : Bool) : World :=
  nidium_socket_wrapper_onaccept cap
    (w.setSock socket_client
      { ctx := none, on_disconnect := (w.socks socket_server).on_disconnect })
    socket_server socket_client sobj jclient ip lz4

/-- The listening world after the transport has accepted a peer: the peer's handle is 6, with
the callbacks of the listening handle 5; the child session is at address 1, its host-side
object is 2. -/
def peerWorld (cap : Nat) : World :=
  transportAccepted cap listeningWorld 5 6 1 2 [49, 48, 46, 48, 46, 48, 46, 50] false

/-- The world `peerWorld` once the server's host-side object is gone, the child being still
attached. -/
def orphanPeerWorld (cap : Nat) : World :=
  (peerWorld cap).setObj 0 { (peerWorld cap).objs 0 with m_JSObject := none }

/-- The connected world once the client's host-side object is gone, the client being still
attached. -/
def orphanClientWorld : World :=
  connectedWorld.setObj 0 { connectedWorld.objs 0 with m_JSObject := none }

/-! ## Sequences of calls on one session -/

/-- A call on a session: the transport delivers a chunk, or the host sets a property. -/
inductive SessionOp where
  | read (chunk : List Byte)
  | set (id : SocketProp) (vp : JSVal) (timeoutOk : Bool)

def SessionOp.apply (cap : Nat) (this : Addr) (w : World) : SessionOp → Except Fault World
  | .read chunk => onRead cap w this chunk
  | .set id vp timeoutOk => .ok (nidium_socket_prop_set cap w (some this) id vp timeoutOk).world

def runOps (cap : Nat) (this : Addr) : World → List SessionOp → Except Fault World
  | w, [] => .ok w
  | w, op :: ops =>
    match op.apply cap this w with
    | .ok w1 => runOps cap this w1 ops
    | .error e => .error e

/-- The state of a session's line buffer as the constructor, the `readline` setter and accept
leave it: the occupancy is at most `cap`, and the buffer is a block of `cap` bytes, or is not
allocated on a session that is not in line-delimited mode. -/
def LineBufferOk (cap : Nat) (w : World) (this : Addr) : Prop :=
  (w.objs this).m_LineBuffer.pos ≤ cap
    ∧ match (w.objs this).m_LineBuffer.data with
      | some mem => mem.length = cap
      | none => (getFlags w this).readline = false

instance (cap : Nat) (w : World) (this : Addr) : Decidable (LineBufferOk cap w this) := by
  unfold LineBufferOk
  cases (w.objs this).m_LineBuffer.data <;> exact inferInstance

/-! ## The scanning loop, turn by turn -/

/-- One turn of the scanning loop of `onRead`: `tlen` when the loop condition is tested, the
offset `pLen` of the delimiter found, the outcome of the guard `tlen-- > 0`, and `tlen` at the
end of the turn. -/
structure ScanTurn where
  tlenBefore : Nat
  pLen : Nat
  guard : Bool
  tlenAfter : Nat
  deriving DecidableEq

/-- The loop `onRead.scan`, which also records its turns, in order. -/
def onRead.scanLog (this : Addr) : Nat → World → List Byte → Nat →
    Except Fault ((World × List Byte × Nat) × List ScanTurn)
  | 0, _, _, _ => .error .diverges
  | fuel + 1, w, pBuf, tlen =>
    if tlen > 0 then
      match memchr (getFrameDelimiter w this) (pBuf.take tlen) with
      | some pLen =>
        let tlen1 := tlen - pLen
        if tlen1 > 0 then
          match readFrame w this (pBuf.take pLen) with
          | .ok w1 =>
            match onRead.scanLog this fuel w1 (pBuf.drop (pLen + 1)) (tlen1 - 1) with
            | .ok (r, log) =>
              .ok (r, { tlenBefore := tlen, pLen := pLen, guard := true,
                        tlenAfter := tlen1 - 1 } :: log)
            | .error e => .error e
          | .error e => .error e
        else
          match onRead.scanLog this fuel w pBuf SIZE_MAX with
          | .ok (r, log) =>
            .ok (r, { tlenBefore := tlen, pLen := pLen, guard := false,
                      tlenAfter := SIZE_MAX } :: log)
          | .error e => .error e
      | none => if tlen ≤ pBuf.length then .ok ((w, pBuf, tlen), []) else .error .outOfBounds
    else .ok ((w, pBuf, tlen), [])

/-- The accepted world after `socket.readline = true` on the server: the child at address 1
was accepted before its server enabled line-delimited mode. -/
def lateReadlineWorld (cap : Nat) : World :=
  (nidium_socket_prop_set cap (acceptedWorld cap) (some 0) .Readline (.boolean true) true).world

/-! ## Payloads -/

/-- A payload the session cannot serialize: neither a string nor an `ArrayBuffer`. -/
def invalidPayload : JSVal → Bool
  | .string _ => false
  | .object (some _) => false
  | _ => true

/-! ## Lemmas on blocks of bytes -/

theorem memchr_eq_none {d : Byte} {l : List Byte} (h : memchr d l = none) : d ∉ l := by
  induction l with
  | nil => simp
  | cons b bs ih =>
    unfold memchr at h
    by_cases hb : b = d
    · simp [hb] at h
    · simp only [hb, if_false, Option.map_eq_none'] at h
      simp only [List.mem_cons, not_or]
      exact ⟨fun e => hb e.symm, ih h⟩

theorem memchr_eq_some {d : Byte} {l : List Byte} {n : Nat} (h : memchr d l = some n) :
    n < l.length ∧ d ∉ l.take n ∧ l = l.take n ++ d :: l.drop (n + 1) := by
  induction l generalizing n with
  | nil => simp [memchr] at h
  | cons b bs ih =>
    unfold memchr at h
    by_cases hb : b = d
    · simp only [hb, if_true, Option.some.injEq] at h
      subst h
      simp [hb]
    · simp only [hb, if_false, Option.map_eq_some'] at h
      obtain ⟨m, hm, rfl⟩ := h
      obtain ⟨h1, h2, h3⟩ := ih hm
      refine ⟨by simpa using h1, ?_, ?_⟩
      · simp only [List.take_succ_cons, List.mem_cons, not_or]
        exact ⟨fun e => hb e.symm, h2⟩
      · simp only [List.take_succ_cons, List.drop_succ_cons, List.cons_append]
        exact congrArg _ h3

theorem memchr_of_not_mem {d : Byte} {l : List Byte} (h : d ∉ l) : memchr d l = none := by
  cases hm : memchr d l with
  | none => rfl
  | some n =>
    obtain ⟨_, _, h3⟩ := memchr_eq_some hm
    exact absurd (by rw [h3]; simp) h

theorem splitLines_of_not_mem {d : Byte} {l : List Byte} (cur : List Byte) (h : d ∉ l) :
    splitLines d cur l = [] := by
  induction l generalizing cur with
  | nil => rfl
  | cons b bs ih =>
    simp only [List.mem_cons, not_or] at h
    have hb : ¬ b = d := fun e => h.1 e.symm
    simp [splitLines, hb, ih _ h.2]

theorem pending_of_not_mem {d : Byte} {l : List Byte} (cur : List Byte) (h : d ∉ l) :
    pending d cur l = cur ++ l := by
  induction l generalizing cur with
  | nil => simp [pending]
  | cons b bs ih =>
    simp only [List.mem_cons, not_or] at h
    have hb : ¬ b = d := fun e => h.1 e.symm
    simp [pending, hb, ih _ h.2]

theorem splitLines_delim {d : Byte} (cur pre post : List Byte) (h : d ∉ pre) :
    splitLines d cur (pre ++ d :: post) = (cur ++ pre) :: splitLines d [] post := by
  induction pre generalizing cur with
  | nil => simp [splitLines]
  | cons b bs ih =>
    simp only [List.mem_cons, not_or] at h
    have hb : ¬ b = d := fun e => h.1 e.symm
    simp [splitLines, hb, ih _ h.2]

theorem pending_delim {d : Byte} (cur pre post : List Byte) (h : d ∉ pre) :
    pending d cur (pre ++ d :: post) = pending d [] post := by
  induction pre generalizing cur with
  | nil => simp [pending]
  | cons b bs ih =>
    simp only [List.mem_cons, not_or] at h
    have hb : ¬ b = d := fun e => h.1 e.symm
    simp [pending, hb, ih _ h.2]

theorem splitLines_append (d : Byte) (cur xs ys : List Byte) :
    splitLines d cur (xs ++ ys) = splitLines d cur xs ++ splitLines d (pending d cur xs) ys := by
  induction xs generalizing cur with
  | nil => simp [splitLines, pending]
  | cons b bs ih =>
    by_cases hb : b = d
    · simp [splitLines, pending, hb, ih]
    · simp [splitLines, pending, hb, ih]

theorem pending_append (d : Byte) (cur xs ys : List Byte) :
    pending d cur (xs ++ ys) = pending d (pending d cur xs) ys := by
  induction xs generalizing cur with
  | nil => simp [pending]
  | cons b bs ih =>
    by_cases hb : b = d
    · simp [pending, hb, ih]
    · simp [pending, hb, ih]

/-- With a delimiter in the chunk, what is pending afterwards does not depend on what was
pending before. -/
theorem pending_of_mem {d : Byte} {l : List Byte} (cur : List Byte) (h : d ∈ l) :
    pending d cur l = pending d [] l := by
  obtain ⟨pre, post, rfl⟩ := List.append_of_mem h
  rw [pending_append, pending_append d []]
  simp [pending]

theorem take_memcpy (mem : List Byte) (pos : Nat) (src : List Byte)
    (h : pos + src.length ≤ mem.length) :
    (memcpy mem pos src).take (pos + src.length) = mem.take pos ++ src := by
  have h1 : (mem.take pos).length = pos := by simp; omega
  unfold memcpy
  rw [List.append_assoc, List.take_append_eq_append_take, List.take_append_eq_append_take]
  simp [h1]

theorem length_memcpy (mem : List Byte) (pos : Nat) (src : List Byte)
    (h : pos + src.length ≤ mem.length) :
    (memcpy mem pos src).length = mem.length := by
  unfold memcpy
  simp
  omega

/-! ## Lemmas on worlds -/

theorem World.put_objs_self (w : World) (a : Addr) (lb : LineBuffer) (es : List Event) :
    (w.put a lb es).objs a = { w.objs a with m_LineBuffer := lb } := by
  simp [World.put]

theorem World.put_lineBuffer (w : World) (a : Addr) (lb : LineBuffer) (es : List Event) :
    ((w.put a lb es).objs a).m_LineBuffer = lb := by
  simp [World.put]

theorem World.put_events (w : World) (a : Addr) (lb : LineBuffer) (es : List Event) :
    (w.put a lb es).events = w.events ++ es := rfl

theorem World.put_parent (w : World) (a : Addr) (lb : LineBuffer) (es : List Event) (x : Addr) :
    ((w.put a lb es).objs x).m_ParentServer = (w.objs x).m_ParentServer := by
  by_cases h : x = a
  · subst h; simp [World.put]
  · simp [World.put, Function.update_noteq h]

theorem World.put_flags (w : World) (a : Addr) (lb : LineBuffer) (es : List Event) (x : Addr) :
    ((w.put a lb es).objs x).m_Flags = (w.objs x).m_Flags := by
  by_cases h : x = a
  · subst h; simp [World.put]
  · simp [World.put, Function.update_noteq h]

theorem World.put_delimiter (w : World) (a : Addr) (lb : LineBuffer) (es : List Event)
    (x : Addr) :
    ((w.put a lb es).objs x).m_FrameDelimiter = (w.objs x).m_FrameDelimiter := by
  by_cases h : x = a
  · subst h; simp [World.put]
  · simp [World.put, Function.update_noteq h]

theorem World.put_jsObject (w : World) (a : Addr) (lb : LineBuffer) (es : List Event)
    (x : Addr) :
    ((w.put a lb es).objs x).m_JSObject = (w.objs x).m_JSObject := by
  by_cases h : x = a
  · subst h; simp [World.put]
  · simp [World.put, Function.update_noteq h]

theorem World.put_socket (w : World) (a : Addr) (lb : LineBuffer) (es : List Event)
    (x : Addr) :
    ((w.put a lb es).objs x).m_Socket = (w.objs x).m_Socket := by
  by_cases h : x = a
  · subst h; simp [World.put]
  · simp [World.put, Function.update_noteq h]

theorem getFlags_put (w : World) (a : Addr) (lb : LineBuffer) (es : List Event) (x : Addr) :
    getFlags (w.put a lb es) x = getFlags w x := by
  simp only [getFlags, World.put_parent, World.put_flags]

theorem getFrameDelimiter_put (w : World) (a : Addr) (lb : LineBuffer) (es : List Event)
    (x : Addr) :
    getFrameDelimiter (w.put a lb es) x = getFrameDelimiter w x := by
  simp only [getFrameDelimiter, World.put_parent, World.put_delimiter]

theorem isJSCallable_put (w : World) (a : Addr) (lb : LineBuffer) (es : List Event)
    (x : Addr) :
    isJSCallable (w.put a lb es) x = isJSCallable w x := by
  simp only [isJSCallable, getJSObject, World.put_parent, World.put_jsObject]

theorem World.put_put (w : World) (a : Addr) (lb1 lb2 : LineBuffer) (es1 es2 : List Event) :
    (w.put a lb1 es1).put a lb2 es2 = w.put a lb2 (es1 ++ es2) := by
  simp [World.put, List.append_assoc]

theorem World.put_self (w : World) (a : Addr) (lb : LineBuffer)
    (h : (w.objs a).m_LineBuffer = lb) : w.put a lb [] = w := by
  subst h
  cases w
  simp [World.put]

theorem World.setLineBuffer_eq_put (w : World) (a : Addr) (lb : LineBuffer) :
    w.setLineBuffer a lb = w.put a lb [] := by
  simp [World.setLineBuffer, World.setObj, World.put]

theorem World.dispatch_eq_put (w : World) (a : Addr) (lb : LineBuffer) (e : Event)
    (h : (w.objs a).m_LineBuffer = lb) : w.dispatch e = w.put a lb [e] := by
  subst h
  cases w
  simp [World.dispatch, World.put]

/-! ## The framing engine -/

/-- One frame: `readFrame` dispatches the buffered bytes followed by `buf` and empties the
line buffer. -/
theorem readFrame_spec (w : World) (this : Addr) (buf mem : List Byte) (pos : Nat)
    (hrl : (getFlags w this).readline = true)
    (hlb : (w.objs this).m_LineBuffer = { data := some mem, pos := pos })
    (hpos : pos ≤ mem.length) :
    readFrame w this buf
      = .ok (w.put this { data := some mem, pos := 0 } [textFrame this (mem.take pos ++ buf)]) := by
  unfold readFrame
  by_cases h0 : pos = 0
  · subst h0
    simp only [hlb, ne_eq, not_true_eq_false, false_and, if_false, List.take_zero,
      List.nil_append]
    rw [World.dispatch_eq_put w this _ _ hlb]
    rfl
  · simp only [hlb, ne_eq, h0, not_false_eq_true, hrl, and_self, if_true, hpos]
    rw [World.setLineBuffer_eq_put, World.dispatch_eq_put _ this _ _ (World.put_lineBuffer _ _ _ _),
      World.put_put]
    rfl

/-- The scanning loop: with enough fuel it returns, having dispatched the complete lines of
the chunk (the first one after the buffered bytes) and leaving the bytes after the last
delimiter; the buffer is emptied exactly when the chunk holds a delimiter. -/
theorem scan_spec (this : Addr) (fuel : Nat) :
    ∀ (w : World) (pBuf mem : List Byte) (pos : Nat),
      (getFlags w this).readline = true →
      (w.objs this).m_LineBuffer = { data := some mem, pos := pos } →
      pos ≤ mem.length →
      pBuf.length < fuel →
      onRead.scan this fuel w pBuf pBuf.length
        = .ok (w.put this
            { data := some mem, pos := if getFrameDelimiter w this ∈ pBuf then 0 else pos }
            ((splitLines (getFrameDelimiter w this) (mem.take pos) pBuf).map (textFrame this)),
          pending (getFrameDelimiter w this) [] pBuf,
          (pending (getFrameDelimiter w this) [] pBuf).length) := by
  induction fuel with
  | zero => intro w pBuf mem pos _ _ _ hf; omega
  | succ fuel ih =>
    intro w pBuf mem pos hrl hlb hpos hf
    unfold onRead.scan
    by_cases hlen : pBuf.length > 0
    · simp only [hlen, if_true, List.take_length]
      cases hm : memchr (getFrameDelimiter w this) pBuf with
      | none =>
        have hn := memchr_eq_none hm
        simp only [le_refl, if_true, hn, if_false, splitLines_of_not_mem _ hn,
          pending_of_not_mem _ hn, List.map_nil, List.nil_append]
        rw [World.put_self w this _ hlb]
      | some n =>
        obtain ⟨hlt, hnot, hsplit⟩ := memchr_eq_some hm
        have hmem : getFrameDelimiter w this ∈ pBuf := by
          rw [hsplit]; simp
        have h1 : pBuf.length - n > 0 := by omega
        simp only [h1, if_true, readFrame_spec w this _ mem pos hrl hlb hpos]
        have hlen2 : pBuf.length - n - 1 = (pBuf.drop (n + 1)).length := by
          simp; omega
        rw [hlen2, ih _ _ mem 0 (by rw [getFlags_put]; exact hrl) (World.put_lineBuffer _ _ _ _)
          (Nat.zero_le _) (by simp; omega)]
        simp only [getFrameDelimiter_put, World.put_put, ite_self, List.take_zero, hmem, if_true]
        have e1 : splitLines (getFrameDelimiter w this) (mem.take pos) pBuf
            = (mem.take pos ++ pBuf.take n)
              :: splitLines (getFrameDelimiter w this) [] (pBuf.drop (n + 1)) := by
          conv_lhs => rw [hsplit]
          exact splitLines_delim _ _ _ hnot
        have e2 : pending (getFrameDelimiter w this) [] pBuf
            = pending (getFrameDelimiter w this) [] (pBuf.drop (n + 1)) := by
          conv_lhs => rw [hsplit]
          exact pending_delim _ _ _ hnot
        rw [e1, e2]
        rfl
    · have hnil : pBuf = [] := by
        cases pBuf with
        | nil => rfl
        | cons b bs => simp at hlen
      subst hnil
      simp only [List.length_nil, gt_iff_lt, lt_self_iff_false, if_false, List.not_mem_nil,
        splitLines, pending, List.map_nil]
      rw [World.put_self w this _ hlb]

/-- The whole of `onRead` in line-delimited mode, on a session whose line buffer is allocated:
it returns, having dispatched the complete lines of the chunk; the bytes after the last
delimiter are appended to the buffer when they fit, and dropped with the buffer emptied when
they do not. -/
theorem onRead_line (cap : Nat) (w : World) (this : Addr) (data mem : List Byte) (pos : Nat)
    (hcall : isJSCallable w this = true)
    (hbin : (getFlags w this).binary = false)
    (hrl : (getFlags w this).readline = true)
    (hlb : (w.objs this).m_LineBuffer = { data := some mem, pos := pos })
    (hcap : mem.length = cap) (hpos : pos ≤ cap) :
    onRead cap w this data
      = .ok (w.put this
          (if (pending (getFrameDelimiter w this) [] data).length ≠ 0
              ∧ (pending (getFrameDelimiter w this) [] data).length
                + (if getFrameDelimiter w this ∈ data then 0 else pos) ≤ cap then
            { data := some (memcpy mem (if getFrameDelimiter w this ∈ data then 0 else pos)
                (pending (getFrameDelimiter w this) [] data))
              pos := (if getFrameDelimiter w this ∈ data then 0 else pos)
                + (pending (getFrameDelimiter w this) [] data).length }
          else if (pending (getFrameDelimiter w this) [] data).length ≠ 0 then
            { data := some mem, pos := 0 }
          else { data := some mem, pos := if getFrameDelimiter w this ∈ data then 0 else pos })
          ((splitLines (getFrameDelimiter w this) (mem.take pos) data).map (textFrame this))) := by
  unfold onRead
  simp only [hcall, hbin, hrl, if_true, Bool.true_eq_false, Bool.false_eq_true, if_false]
  rw [scan_spec this (data.length + 1) w data mem pos hrl hlb (by omega) (by omega)]
  simp only [World.put_lineBuffer]
  generalize hp1 : (if getFrameDelimiter w this ∈ data then 0 else pos) = pos1
  have hpos1 : pos1 ≤ cap := by
    rw [← hp1]; split <;> omega
  generalize pending (getFrameDelimiter w this) [] data = rest
  by_cases h1 : rest.length ≠ 0 ∧ rest.length + pos1 ≤ cap
  · have hb : pos1 + rest.length ≤ mem.length ∧ rest.length ≤ rest.length := by
      constructor <;> omega
    rw [if_pos h1, if_pos h1]
    simp only [if_pos hb, List.take_length, World.setLineBuffer_eq_put, World.put_put,
      List.append_nil]
  · rw [if_neg h1, if_neg h1]
    by_cases h2 : rest.length ≠ 0
    · rw [if_pos h2, if_pos h2]
      simp only [World.setLineBuffer_eq_put, World.put_put, List.append_nil]
    · rw [if_neg h2, if_neg h2]

/-- Feeding chunks one after the other is feeding their concatenation as lists of chunks. -/
theorem feed_append (cap : Nat) (this : Addr) (w : World) (xs ys : List (List Byte)) :
    feed cap this w (xs ++ ys)
      = match feed cap this w xs with
        | .ok w1 => feed cap this w1 ys
        | .error e => .error e := by
  induction xs generalizing w with
  | nil => simp [feed]
  | cons c cs ih =>
    simp only [List.cons_append, feed]
    cases onRead cap w this c with
    | ok w1 => simp [ih]
    | error e => simp

/-- What is pending after a chunk is never cut short when it fits. -/
theorem pending_length_le (d : Byte) (cur l : List Byte) :
    (pending d [] l).length ≤ (pending d cur l).length := by
  by_cases h : d ∈ l
  · rw [pending_of_mem cur h]
  · rw [pending_of_not_mem cur h, pending_of_not_mem [] h]
    simp

/-- One chunk whose pending bytes fit: the complete lines are dispatched and the buffer holds
what is pending. -/
theorem onRead_line_fit (cap : Nat) (w : World) (this : Addr) (data mem : List Byte) (pos : Nat)
    (hcall : isJSCallable w this = true)
    (hbin : (getFlags w this).binary = false)
    (hrl : (getFlags w this).readline = true)
    (hlb : (w.objs this).m_LineBuffer = { data := some mem, pos := pos })
    (hcap : mem.length = cap) (hpos : pos ≤ cap)
    (hfit : (pending (getFrameDelimiter w this) (mem.take pos) data).length ≤ cap) :
    ∃ mem1 pos1, mem1.length = cap ∧ pos1 ≤ cap
      ∧ mem1.take pos1 = pending (getFrameDelimiter w this) (mem.take pos) data
      ∧ onRead cap w this data
        = .ok (w.put this { data := some mem1, pos := pos1 }
            ((splitLines (getFrameDelimiter w this) (mem.take pos) data).map
              (textFrame this))) := by
  rw [onRead_line cap w this data mem pos hcall hbin hrl hlb hcap hpos]
  have hlen : (mem.take pos).length = pos := by simp; omega
  by_cases hd : getFrameDelimiter w this ∈ data
  · rw [pending_of_mem _ hd] at hfit ⊢
    simp only [hd, if_true, Nat.add_zero, Nat.zero_add]
    by_cases h0 : (pending (getFrameDelimiter w this) [] data).length ≠ 0
    · refine ⟨memcpy mem 0 (pending (getFrameDelimiter w this) [] data),
        (pending (getFrameDelimiter w this) [] data).length, ?_, ?_, ?_, by
          simp only [h0, hfit, and_self, if_true, ne_eq, not_false_eq_true]⟩
      · exact (length_memcpy _ _ _ (by omega)).trans hcap
      · exact hfit
      · have := take_memcpy mem 0 (pending (getFrameDelimiter w this) [] data) (by omega)
        simpa using this
    · refine ⟨mem, 0, hcap, Nat.zero_le _, ?_, by simp only [h0, false_and, if_false]⟩
      have : pending (getFrameDelimiter w this) [] data = [] := by
        apply List.eq_nil_of_length_eq_zero; omega
      simp [this]
  · rw [pending_of_not_mem _ hd] at hfit ⊢
    rw [pending_of_not_mem _ hd]
    simp only [hd, if_false, List.nil_append]
    simp only [List.length_append, hlen] at hfit
    by_cases h0 : data.length ≠ 0
    · have hfit2 : data.length + pos ≤ cap := by omega
      refine ⟨memcpy mem pos data, pos + data.length, ?_, ?_, ?_, by
        simp only [h0, hfit2, and_self, if_true, ne_eq, not_false_eq_true]⟩
      · exact (length_memcpy _ _ _ (by omega)).trans hcap
      · omega
      · exact take_memcpy mem pos data (by omega)
    · refine ⟨mem, pos, hcap, hpos, ?_, by simp only [h0, false_and, if_false]⟩
      have : data = [] := by
        apply List.eq_nil_of_length_eq_zero; omega
      simp [this]

/-- Chunk boundaries are invisible: as long as what is pending after each chunk fits in the
line buffer, feeding the chunks dispatches the complete lines of the concatenated stream and
leaves the stream's undelimited remainder in the buffer. -/
theorem feed_line_fit (cap : Nat) (this : Addr) (chunks : List (List Byte)) :
    ∀ (w : World) (mem : List Byte) (pos : Nat),
      isJSCallable w this = true →
      (getFlags w this).binary = false →
      (getFlags w this).readline = true →
      (w.objs this).m_LineBuffer = { data := some mem, pos := pos } →
      mem.length = cap → pos ≤ cap →
      (∀ k, k ≤ chunks.length →
        (pending (getFrameDelimiter w this) (mem.take pos) (chunks.take k).flatten).length
          ≤ cap) →
      ∃ mem1 pos1, mem1.length = cap ∧ pos1 ≤ cap
        ∧ mem1.take pos1 = pending (getFrameDelimiter w this) (mem.take pos) chunks.flatten
        ∧ feed cap this w chunks
          = .ok (w.put this { data := some mem1, pos := pos1 }
              ((splitLines (getFrameDelimiter w this) (mem.take pos) chunks.flatten).map
                (textFrame this))) := by
  induction chunks with
  | nil =>
    intro w mem pos _ _ _ hlb hcap hpos _
    exact ⟨mem, pos, hcap, hpos, by simp [pending], by
      simp [feed, splitLines, World.put_self w this _ hlb]⟩
  | cons c cs ih =>
    intro w mem pos hcall hbin hrl hlb hcap hpos hfit
    have hfit1 : (pending (getFrameDelimiter w this) (mem.take pos) c).length ≤ cap := by
      have := hfit 1 (by simp)
      simpa using this
    obtain ⟨mem1, pos1, hcap1, hpos1, htake1, hrun1⟩ :=
      onRead_line_fit cap w this c mem pos hcall hbin hrl hlb hcap hpos hfit1
    have hfit2 : ∀ k, k ≤ cs.length →
        (pending (getFrameDelimiter (w.put this { data := some mem1, pos := pos1 }
            ((splitLines (getFrameDelimiter w this) (mem.take pos) c).map (textFrame this)))
          this) (mem1.take pos1) (cs.take k).flatten).length ≤ cap := by
      intro k hk
      have := hfit (k + 1) (by simp; omega)
      rw [getFrameDelimiter_put, htake1]
      simpa [pending_append] using this
    obtain ⟨mem2, pos2, hcap2, hpos2, htake2, hrun2⟩ :=
      ih _ mem1 pos1 (by rw [isJSCallable_put]; exact hcall)
        (by rw [getFlags_put]; exact hbin) (by rw [getFlags_put]; exact hrl)
        (World.put_lineBuffer _ _ _ _) hcap1 hpos1 hfit2
    refine ⟨mem2, pos2, hcap2, hpos2, ?_, ?_⟩
    · rw [htake2, getFrameDelimiter_put, htake1]
      simp [pending_append]
    · simp only [feed, hrun1, hrun2, World.put_put, getFrameDelimiter_put, htake1,
        List.flatten_cons, splitLines_append, List.map_append]

/-! ## The reference split and the library's `List.splitOn` -/

theorem splitOn_cons_eq (d b : Byte) (bs : List Byte) :
    (b :: bs).splitOn d
      = if b = d then [] :: bs.splitOn d else (bs.splitOn d).modifyHead (List.cons b) := by
  simp only [List.splitOn, List.splitOnP_cons, beq_iff_eq]

theorem splitOn_ne_nil (d : Byte) (s : List Byte) : s.splitOn d ≠ [] :=
  List.splitOnP_ne_nil _ _

theorem dropLast_modifyHead (f : List Byte → List Byte) (l : List (List Byte)) :
    (l.modifyHead f).dropLast = (l.dropLast).modifyHead f := by
  cases l with
  | nil => rfl
  | cons a t =>
    cases t with
    | nil => rfl
    | cons b u => simp [List.dropLast]

/-- The complete lines are the pieces of the library's split, the last piece left out; what
was pending before goes in front of the first piece. -/
theorem splitLines_eq_splitOn (d : Byte) (s : List Byte) :
    ∀ cur, splitLines d cur s = ((s.splitOn d).dropLast).modifyHead (fun f => cur ++ f) := by
  induction s with
  | nil => intro cur; simp [splitLines, List.splitOn_nil]
  | cons b bs ih =>
    intro cur
    rw [splitOn_cons_eq]
    by_cases hb : b = d
    · simp only [splitLines, hb, if_true]
      have hne := splitOn_ne_nil d bs
      cases hs : bs.splitOn d with
      | nil => exact absurd hs hne
      | cons a t =>
        have := ih []
        rw [hs] at this
        simp only [List.dropLast_cons₂, List.modifyHead_cons, List.append_nil, this]
        cases (a :: t).dropLast <;> simp
    · simp only [splitLines, hb, if_false, ih (cur ++ [b]), dropLast_modifyHead,
        List.modifyHead_modifyHead]
      congr 1
      funext f
      simp

theorem splitLines_nil_eq_splitOn (d : Byte) (s : List Byte) :
    splitLines d [] s = (s.splitOn d).dropLast := by
  rw [splitLines_eq_splitOn]
  cases (s.splitOn d).dropLast <;> simp

theorem getLast_modifyHead_cons (b : Byte) (l : List (List Byte)) (h : l ≠ [])
    (h2 : l.modifyHead (List.cons b) ≠ []) :
    (l.modifyHead (List.cons b)).getLast h2
      = if l.length = 1 then b :: l.getLast h else l.getLast h := by
  cases l with
  | nil => exact absurd rfl h
  | cons a t =>
    cases t with
    | nil => simp
    | cons c u => simp

theorem length_modifyHead (f : List Byte → List Byte) (l : List (List Byte)) :
    (l.modifyHead f).length = l.length := by
  cases l <;> simp

/-- What is pending is the last piece of the library's split, after what was pending before
when the stream holds no delimiter. -/
theorem pending_eq_getLast (d : Byte) (s : List Byte) :
    ∀ cur, pending d cur s
      = if (s.splitOn d).length = 1 then cur ++ (s.splitOn d).getLast (splitOn_ne_nil d s)
        else (s.splitOn d).getLast (splitOn_ne_nil d s) := by
  induction s with
  | nil => intro cur; simp [pending, List.splitOn_nil]
  | cons b bs ih =>
    intro cur
    have hne := splitOn_ne_nil d bs
    have key : ∀ (l : List (List Byte)) (h : l ≠ []), (b :: bs).splitOn d = l →
        pending d cur (b :: bs) = if l.length = 1 then cur ++ l.getLast h else l.getLast h := by
      intro l h hl
      rw [splitOn_cons_eq] at hl
      by_cases hb : b = d
      · simp only [hb, if_true] at hl
        subst hl
        have hlen : ¬ ([] :: bs.splitOn d).length = 1 := by
          simp only [List.length_cons, Nat.add_eq_right]
          exact fun h0 => hne (List.eq_nil_of_length_eq_zero h0)
        simp only [pending, hb, if_true, hlen, if_false, List.getLast_cons hne, ih []]
        split <;> simp
      · simp only [hb, if_false] at hl
        subst hl
        simp only [pending, hb, if_false, ih (cur ++ [b]), length_modifyHead,
          getLast_modifyHead_cons b _ hne]
        split <;> simp
    exact key _ (splitOn_ne_nil d (b :: bs)) rfl

theorem pending_nil_eq_getLast (d : Byte) (s : List Byte) :
    pending d [] s = (s.splitOn d).getLast (splitOn_ne_nil d s) := by
  rw [pending_eq_getLast]
  split <;> simp

/-! ## Facts on the concrete worlds -/

theorem lineWorld_callable (cap : Nat) : isJSCallable (lineWorld cap) 0 = true := rfl

theorem lineWorld_binary (cap : Nat) : (getFlags (lineWorld cap) 0).binary = false := rfl

theorem lineWorld_readline (cap : Nat) : (getFlags (lineWorld cap) 0).readline = true := rfl

theorem lineWorld_delimiter (cap : Nat) : getFrameDelimiter (lineWorld cap) 0 = 10 := rfl

theorem lineWorld_lineBuffer (cap : Nat) :
    ((lineWorld cap).objs 0).m_LineBuffer = { data := some (mallocLineBuffer cap), pos := 0 } :=
  rfl

theorem length_mallocLineBuffer (cap : Nat) : (mallocLineBuffer cap).length = cap := by
  simp [mallocLineBuffer]

/-! ## Frame boundaries (C1, C2) -/

/-- A line longer than the buffer that arrives in two chunks loses its first chunk: after a
delimiter-free chunk of `cap + 1` bytes, the chunk `b, d` yields the frame `b` alone. -/
theorem feed_overflow_then_line (cap : Nat) (w : World) (this : Addr) (mem : List Byte)
    (a b : Byte)
    (hcall : isJSCallable w this = true)
    (hbin : (getFlags w this).binary = false)
    (hrl : (getFlags w this).readline = true)
    (hlb : (w.objs this).m_LineBuffer = { data := some mem, pos := 0 })
    (hcap : mem.length = cap)
    (ha : a ≠ getFrameDelimiter w this) (hb : b ≠ getFrameDelimiter w this) :
    feed cap this w [List.replicate (cap + 1) a, [b, getFrameDelimiter w this]]
      = .ok (w.put this { data := some mem, pos := 0 } [textFrame this [b]]) := by
  have hnot : getFrameDelimiter w this ∉ List.replicate (cap + 1) a := by
    intro h
    exact ha (List.eq_of_mem_replicate h).symm
  have h1 : onRead cap w this (List.replicate (cap + 1) a)
      = .ok (w.put this { data := some mem, pos := 0 } []) := by
    rw [onRead_line cap w this _ mem 0 hcall hbin hrl hlb hcap (Nat.zero_le _)]
    simp [hnot, pending_of_not_mem, splitLines_of_not_mem]
  have h2 : onRead cap (w.put this { data := some mem, pos := 0 } []) this
      [b, getFrameDelimiter w this]
      = .ok ((w.put this { data := some mem, pos := 0 } []).put this
          { data := some mem, pos := 0 } [textFrame this [b]]) := by
    rw [onRead_line cap _ this _ mem 0 (by rw [isJSCallable_put]; exact hcall)
      (by rw [getFlags_put]; exact hbin) (by rw [getFlags_put]; exact hrl)
      (World.put_lineBuffer _ _ _ _) hcap (Nat.zero_le _)]
    simp [getFrameDelimiter_put, pending, splitLines, hb]
  simp only [feed, h1, h2, World.put_put, List.nil_append]

/-- C1, as amended: on a callable session in line-delimited, non-binary mode that starts with
an allocated, empty line buffer of `cap = SOCKET_LINEBUFFER_MAX` bytes, if after every chunk
the bytes that follow the last delimiter of the stream received so far number at most `cap`,
then feeding the chunks in order to `onRead` returns and dispatches, in order, exactly the
pieces of the concatenated stream split at the delimiter, the last (undelimited) piece left
out. -/
theorem feed_frames_eq_splitOn (cap : Nat) (w : World) (this : Addr)
    (chunks : List (List Byte)) (mem : List Byte)
    (hcall : isJSCallable w this = true)
    (hbin : (getFlags w this).binary = false)
    (hrl : (getFlags w this).readline = true)
    (hlb : (w.objs this).m_LineBuffer = { data := some mem, pos := 0 })
    (hcap : mem.length = cap)
    (hfit : ∀ k, k ≤ chunks.length →
      (pending (getFrameDelimiter w this) [] (chunks.take k).flatten).length ≤ cap) :
    ∃ w1, feed cap this w chunks = .ok w1
      ∧ w1.events
        = w.events
          ++ ((chunks.flatten.splitOn (getFrameDelimiter w this)).dropLast).map
              (textFrame this) := by
  obtain ⟨mem1, pos1, _, _, _, hrun⟩ :=
    feed_line_fit cap this chunks w mem 0 hcall hbin hrl hlb hcap (Nat.zero_le _)
      (by simpa using hfit)
  refine ⟨_, hrun, ?_⟩
  rw [World.put_events, List.take_zero, splitLines_nil_eq_splitOn]

/-- A run of C1: buffer of 4 bytes, chunks "ab", "c\nd". -/
theorem feed_frames_eq_splitOn_witness :
    ∃ w1, feed 4 0 (lineWorld 4) [[97, 98], [99, 10, 100]] = .ok w1
      ∧ w1.events
        = (lineWorld 4).events
          ++ (([[97, 98], [99, 10, 100]].flatten.splitOn
                (getFrameDelimiter (lineWorld 4) 0)).dropLast).map (textFrame 0) :=
  feed_frames_eq_splitOn 4 (lineWorld 4) 0 [[97, 98], [99, 10, 100]] (mallocLineBuffer 4)
    rfl rfl rfl rfl rfl (by decide)

/-- C1 fails as stated: with a line buffer of 8192 bytes, the chunks `a` × 8193 and "b\n"
make `onRead` dispatch the single frame "b", which is not the line `a` × 8193 followed by
"b" that splitting the concatenated stream gives. -/
theorem feed_frames_ne_splitOn_overflow :
    feed 8192 0 (lineWorld 8192) [List.replicate 8193 97, [98, 10]]
        = .ok ((lineWorld 8192).put 0 { data := some (mallocLineBuffer 8192), pos := 0 }
            [textFrame 0 [98]])
      ∧ ¬ ∃ w1, feed 8192 0 (lineWorld 8192) [List.replicate 8193 97, [98, 10]] = .ok w1
          ∧ w1.events
            = (lineWorld 8192).events
              ++ (([List.replicate 8193 97, [98, 10]].flatten.splitOn
                    (getFrameDelimiter (lineWorld 8192) 0)).dropLast).map (textFrame 0) := by
  have hrun := feed_overflow_then_line 8192 (lineWorld 8192) 0 (mallocLineBuffer 8192) 97 98
    (lineWorld_callable _) (lineWorld_binary _) (lineWorld_readline _) (lineWorld_lineBuffer _)
    (length_mallocLineBuffer _) (by rw [lineWorld_delimiter]; decide)
    (by rw [lineWorld_delimiter]; decide)
  rw [lineWorld_delimiter] at hrun
  refine ⟨hrun, ?_⟩
  rintro ⟨w1, h1, h2⟩
  rw [hrun] at h1
  injection h1 with h1
  subst h1
  have hnot : (10 : Byte) ∉ List.replicate 8193 97 := by
    intro h
    exact absurd (List.eq_of_mem_replicate h) (by decide)
  have hlen : (List.replicate 8193 (97 : Byte)).length = 8193 := List.length_replicate _ _
  rw [World.put_events, lineWorld_delimiter, ← splitLines_nil_eq_splitOn] at h2
  generalize List.replicate 8193 (97 : Byte) = big at h2 hnot hlen
  simp only [List.flatten_cons, List.flatten_nil, List.append_nil, splitLines_append,
    splitLines_of_not_mem _ hnot, pending_of_not_mem _ hnot, List.nil_append] at h2
  have h3 := List.append_cancel_left h2
  have e : splitLines 10 big [98, 10] = [big ++ [98]] := by
    simp [splitLines]
  rw [e] at h3
  simp only [List.map_cons, List.map_nil, textFrame] at h3
  have h4 := congrArg List.length (Payload.string.inj (Event.onread.inj (List.cons.inj h3).1).2)
  simp [hlen] at h4

/-- The chunks "ab", "c\nde", "f\n" with delimiter `\n`: nothing is dispatched for the first
chunk alone, and the three chunks give the frames "abc" and "def". -/
theorem feed_example (cap : Nat) (w : World) (this : Addr) (mem : List Byte)
    (hcall : isJSCallable w this = true)
    (hbin : (getFlags w this).binary = false)
    (hrl : (getFlags w this).readline = true)
    (hd : getFrameDelimiter w this = 10)
    (hlb : (w.objs this).m_LineBuffer = { data := some mem, pos := 0 })
    (hcap : mem.length = cap) (h2 : 2 ≤ cap) :
    (∃ w1, feed cap this w [[97, 98]] = .ok w1 ∧ w1.events = w.events)
      ∧ ∃ w3, feed cap this w [[97, 98], [99, 10, 100, 101], [102, 10]] = .ok w3
          ∧ w3.events
            = w.events ++ [textFrame this [97, 98, 99], textFrame this [100, 101, 102]] := by
  constructor
  · obtain ⟨mem1, pos1, _, _, _, hrun⟩ :=
      feed_line_fit cap this [[97, 98]] w mem 0 hcall hbin hrl hlb hcap (Nat.zero_le _)
        (by
          intro k hk
          simp only [List.length_cons, List.length_nil] at hk
          interval_cases k
          · simp [pending]
          · simp [pending, hd]; omega)
    refine ⟨_, hrun, ?_⟩
    simp [World.put_events, hd, splitLines]
  · obtain ⟨mem1, pos1, _, _, _, hrun⟩ :=
      feed_line_fit cap this [[97, 98], [99, 10, 100, 101], [102, 10]] w mem 0 hcall hbin hrl
        hlb hcap (Nat.zero_le _)
        (by
          intro k hk
          simp only [List.length_cons, List.length_nil] at hk
          interval_cases k <;> simp [pending, hd] <;> omega)
    refine ⟨_, hrun, ?_⟩
    simp [World.put_events, hd, splitLines]

/-- C2, as amended: on a callable session in line-delimited, non-binary mode with delimiter
`\n` and an allocated, empty line buffer (of at least two bytes), the chunks "ab", "c\nde",
"f\n" fed in that order to `onRead` produce the frames "abc" and then "def", in that order,
and no frame is dispatched when only the first chunk has been processed. -/
theorem feed_example_frames (cap : Nat) (w : World) (this : Addr) (mem : List Byte)
    (hcall : isJSCallable w this = true)
    (hbin : (getFlags w this).binary = false)
    (hrl : (getFlags w this).readline = true)
    (hd : getFrameDelimiter w this = 10)
    (hlb : (w.objs this).m_LineBuffer = { data := some mem, pos := 0 })
    (hcap : mem.length = cap) (h2 : 2 ≤ cap) :
    (∃ w1, feed cap this w [[97, 98]] = .ok w1 ∧ w1.events = w.events)
      ∧ ∃ w3, feed cap this w [[97, 98], [99, 10, 100, 101], [102, 10]] = .ok w3
          ∧ w3.events
            = w.events ++ [textFrame this [97, 98, 99], textFrame this [100, 101, 102]] :=
  feed_example cap w this mem hcall hbin hrl hd hlb hcap h2

/-- The run of C2 with a line buffer of 8192 bytes. -/
theorem feed_example_frames_witness :
    (∃ w1, feed 8192 0 (lineWorld 8192) [[97, 98]] = .ok w1
        ∧ w1.events = (lineWorld 8192).events)
      ∧ ∃ w3, feed 8192 0 (lineWorld 8192) [[97, 98], [99, 10, 100, 101], [102, 10]] = .ok w3
          ∧ w3.events
            = (lineWorld 8192).events
              ++ [textFrame 0 [97, 98, 99], textFrame 0 [100, 101, 102]] :=
  feed_example_frames 8192 (lineWorld 8192) 0 (mallocLineBuffer 8192) rfl rfl rfl rfl rfl
    (length_mallocLineBuffer 8192) (by decide)

/-- C2 fails as stated: the chunks "ab", "c\nde", "f\n" make `onRead` dispatch the frames
"abc" and "def", not "abcde" and "f". -/
theorem example_frames_not_abcde_f :
    ∃ w3, feed 8192 0 (lineWorld 8192) [[97, 98], [99, 10, 100, 101], [102, 10]] = .ok w3
      ∧ frames w3.events = [[97, 98, 99], [100, 101, 102]]
      ∧ frames w3.events ≠ [[97, 98, 99, 100, 101], [102]] := by
  obtain ⟨w3, hrun, hev⟩ :=
    (feed_example 8192 (lineWorld 8192) 0 (mallocLineBuffer 8192) rfl rfl rfl rfl rfl
      (length_mallocLineBuffer 8192) (by decide)).2
  have hf : frames w3.events = [[97, 98, 99], [100, 101, 102]] := by
    rw [hev]; rfl
  exact ⟨w3, hrun, hf, by rw [hf]; decide⟩

/-! ## Binary and plain text delivery (C3) -/

/-- C3: on a callable session whose binary flag is set (line-delimited or not), or that has
neither flag set, `onRead` on a chunk returns and dispatches exactly one "onread" event,
whose payload holds exactly the bytes of the chunk; nothing else changes, so the line buffer
keeps its contents and occupancy. -/
theorem onRead_passthrough (cap : Nat) (w : World) (this : Addr) (data : List Byte)
    (hcall : isJSCallable w this = true)
    (hmode : (getFlags w this).binary = true
      ∨ ((getFlags w this).binary = false ∧ (getFlags w this).readline = false)) :
    ∃ w1 p, onRead cap w this data = .ok w1
      ∧ p.bytes = data
      ∧ w1.events = w.events ++ [Event.onread this p]
      ∧ w1.objs = w.objs
      ∧ (w1.objs this).m_LineBuffer = (w.objs this).m_LineBuffer := by
  rcases hmode with hb | ⟨hb, hr⟩
  · exact ⟨w.dispatch (.onread this (.arrayBuffer data)), .arrayBuffer data,
      by simp [onRead, hcall, hb], rfl, rfl, rfl, rfl⟩
  · exact ⟨w.dispatch (.onread this (.string data)), .string data,
      by simp [onRead, hcall, hb, hr], rfl, rfl, rfl, rfl⟩

/-- A run of C3: a chunk with two delimiter bytes inside, on a session with both the binary
and the line-delimited flag set. -/
theorem onRead_passthrough_witness :
    ∃ w1 p, onRead 8192 (binaryLineWorld 8192) 0 [97, 10, 98, 10, 99] = .ok w1
      ∧ p.bytes = [97, 10, 98, 10, 99]
      ∧ w1.events = (binaryLineWorld 8192).events ++ [Event.onread 0 p]
      ∧ w1.objs = (binaryLineWorld 8192).objs
      ∧ (w1.objs 0).m_LineBuffer = ((binaryLineWorld 8192).objs 0).m_LineBuffer :=
  onRead_passthrough 8192 (binaryLineWorld 8192) 0 [97, 10, 98, 10, 99] rfl (Or.inl rfl)

/-! ## Overflow of the line buffer (C4) -/

/-- One chunk whose undelimited tail does not fit: the complete lines are dispatched, the
tail is not stored, the occupancy is zero. -/
theorem onRead_line_overflow (cap : Nat) (w : World) (this : Addr) (data mem : List Byte)
    (pos : Nat)
    (hcall : isJSCallable w this = true)
    (hbin : (getFlags w this).binary = false)
    (hrl : (getFlags w this).readline = true)
    (hlb : (w.objs this).m_LineBuffer = { data := some mem, pos := pos })
    (hcap : mem.length = cap) (hpos : pos ≤ cap)
    (hne : pending (getFrameDelimiter w this) [] data ≠ [])
    (hover : cap < (pending (getFrameDelimiter w this) [] data).length
      + (if getFrameDelimiter w this ∈ data then 0 else pos)) :
    onRead cap w this data
      = .ok (w.put this { data := some mem, pos := 0 }
          ((splitLines (getFrameDelimiter w this) (mem.take pos) data).map (textFrame this))) := by
  rw [onRead_line cap w this data mem pos hcall hbin hrl hlb hcap hpos]
  have h0 : (pending (getFrameDelimiter w this) [] data).length ≠ 0 := by
    intro h; exact hne (List.eq_nil_of_length_eq_zero h)
  have h1 : ¬ ((pending (getFrameDelimiter w this) [] data).length ≠ 0
      ∧ (pending (getFrameDelimiter w this) [] data).length
        + (if getFrameDelimiter w this ∈ data then 0 else pos) ≤ cap) := by
    intro h; omega
  rw [if_neg h1, if_pos h0]

theorem not_mem_flatten_take {d : Byte} {chunks : List (List Byte)}
    (h : ∀ c ∈ chunks, d ∉ c) (k : Nat) : d ∉ (chunks.take k).flatten := by
  intro hm
  obtain ⟨c, hc, hd⟩ := List.mem_flatten.mp hm
  exact h c (List.mem_of_mem_take hc) hd

theorem length_flatten_take_le (chunks : List (List Byte)) (k : Nat) :
    (chunks.take k).flatten.length ≤ chunks.flatten.length := by
  conv_rhs => rw [← List.take_append_drop k chunks, List.flatten_append, List.length_append]
  omega

/-- A delimiter-free stream that outgrows the line buffer: the occupancy is zero, and nothing
has been dispatched, after the chunk that would exceed the capacity. -/
theorem feed_overflow_resets (cap : Nat) (w : World) (this : Addr) (mem : List Byte)
    (pos : Nat) (pre : List (List Byte)) (c : List Byte)
    (hcall : isJSCallable w this = true)
    (hbin : (getFlags w this).binary = false)
    (hrl : (getFlags w this).readline = true)
    (hlb : (w.objs this).m_LineBuffer = { data := some mem, pos := pos })
    (hcap : mem.length = cap)
    (hpre : ∀ x ∈ pre, getFrameDelimiter w this ∉ x)
    (hc : getFrameDelimiter w this ∉ c)
    (hfit : pos + pre.flatten.length ≤ cap)
    (hover : cap < pos + pre.flatten.length + c.length) :
    ∃ w1, feed cap this w (pre ++ [c]) = .ok w1
      ∧ (w1.objs this).m_LineBuffer.pos = 0
      ∧ w1.events = w.events := by
  have hlen : (mem.take pos).length = pos := by simp; omega
  obtain ⟨mem1, pos1, hcap1, hpos1, htake1, hrun1⟩ :=
    feed_line_fit cap this pre w mem pos hcall hbin hrl hlb hcap (by omega)
      (by
        intro k _
        rw [pending_of_not_mem _ (not_mem_flatten_take hpre k)]
        have := length_flatten_take_le pre k
        simp only [List.length_append, hlen]
        omega)
  have hall : getFrameDelimiter w this ∉ pre.flatten := by
    have := not_mem_flatten_take hpre pre.length
    simpa using this
  rw [pending_of_not_mem _ hall] at htake1
  rw [splitLines_of_not_mem _ hall, List.map_nil] at hrun1
  have hp1 : pos1 = pos + pre.flatten.length := by
    have := congrArg List.length htake1
    simp only [List.length_take, List.length_append] at this
    omega
  have hrun2 := onRead_line_overflow cap (w.put this { data := some mem1, pos := pos1 } [])
    this c mem1 pos1 (by rw [isJSCallable_put]; exact hcall)
    (by rw [getFlags_put]; exact hbin) (by rw [getFlags_put]; exact hrl)
    (World.put_lineBuffer _ _ _ _) hcap1 hpos1
    (by
      rw [getFrameDelimiter_put, pending_of_not_mem _ hc, List.nil_append]
      intro h
      rw [h] at hover
      simp only [List.length_nil] at hover
      omega)
    (by
      rw [getFrameDelimiter_put, pending_of_not_mem _ hc, List.nil_append, if_neg hc]
      omega)
  rw [getFrameDelimiter_put, splitLines_of_not_mem _ hc, List.map_nil, World.put_put] at hrun2
  refine ⟨w.put this { data := some mem1, pos := 0 } ([] ++ []), ?_, ?_, ?_⟩
  · rw [feed_append, hrun1]
    simp only [feed, hrun2]
  · rw [World.put_lineBuffer]
  · simp [World.put_events]

/-- C4: in line-delimited mode (callable session, binary flag unset, line buffer a block of
`cap = SOCKET_LINEBUFFER_MAX` bytes), when the bytes left after the last delimiter of a chunk
are non-empty and their count plus the line buffer's occupancy at that point (zero once a
delimiter of the chunk has completed a frame, the occupancy on entry otherwise) exceeds
`cap`, `onRead` returns having dispatched the complete lines of the chunk only, with the
block unchanged and the occupancy zero. In particular, for delimiter-free chunks, the
occupancy is zero, and nothing has been dispatched, after the first chunk that takes the
occupancy on entry plus the total length over `cap`. -/
theorem onRead_overflow_drops (cap : Nat) (w : World) (this : Addr) (mem : List Byte)
    (hcall : isJSCallable w this = true)
    (hbin : (getFlags w this).binary = false)
    (hrl : (getFlags w this).readline = true)
    (hmem : (w.objs this).m_LineBuffer.data = some mem)
    (hcap : mem.length = cap)
    (hpos : (w.objs this).m_LineBuffer.pos ≤ cap) :
    (∀ data : List Byte,
        pending (getFrameDelimiter w this) [] data ≠ [] →
        cap < (pending (getFrameDelimiter w this) [] data).length
          + (if getFrameDelimiter w this ∈ data then 0 else (w.objs this).m_LineBuffer.pos) →
        ∃ w1, onRead cap w this data = .ok w1
          ∧ (w1.objs this).m_LineBuffer = { data := some mem, pos := 0 }
          ∧ w1.events
            = w.events
              ++ ((splitLines (getFrameDelimiter w this)
                    (mem.take (w.objs this).m_LineBuffer.pos) data).map (textFrame this)))
      ∧ ∀ (pre : List (List Byte)) (c : List Byte),
          (∀ x ∈ pre, getFrameDelimiter w this ∉ x) →
          getFrameDelimiter w this ∉ c →
          (w.objs this).m_LineBuffer.pos + pre.flatten.length ≤ cap →
          cap < (w.objs this).m_LineBuffer.pos + pre.flatten.length + c.length →
          ∃ w1, feed cap this w (pre ++ [c]) = .ok w1
            ∧ (w1.objs this).m_LineBuffer.pos = 0
            ∧ w1.events = w.events := by
  have hlb : (w.objs this).m_LineBuffer
      = { data := some mem, pos := (w.objs this).m_LineBuffer.pos } := by
    cases hl : (w.objs this).m_LineBuffer with
    | mk d p => rw [hl] at hmem; simp only at hmem; subst hmem; rfl
  constructor
  · intro data hne hover
    exact ⟨_, onRead_line_overflow cap w this data mem _ hcall hbin hrl hlb hcap hpos hne hover,
      World.put_lineBuffer _ _ _ _, World.put_events _ _ _ _⟩
  · intro pre c hpre hc hfit hover
    exact feed_overflow_resets cap w this mem _ pre c hcall hbin hrl hlb hcap hpre hc hfit hover

/-- A run of C4 with a line buffer of 4 bytes: the chunk "x\ncdefg" gives the frame "x" and
drops "cdefg"; and the delimiter-free chunks "abc", "de" leave the occupancy at zero. -/
theorem onRead_overflow_drops_witness :
    (∃ w1, onRead 4 (lineWorld 4) 0 [120, 10, 99, 100, 101, 102, 103] = .ok w1
        ∧ (w1.objs 0).m_LineBuffer = { data := some (mallocLineBuffer 4), pos := 0 }
        ∧ w1.events
          = (lineWorld 4).events
            ++ ((splitLines (getFrameDelimiter (lineWorld 4) 0)
                  ((mallocLineBuffer 4).take ((lineWorld 4).objs 0).m_LineBuffer.pos)
                  [120, 10, 99, 100, 101, 102, 103]).map (textFrame 0)))
      ∧ ∃ w1, feed 4 0 (lineWorld 4) ([[97, 98, 99]] ++ [[100, 101]]) = .ok w1
          ∧ (w1.objs 0).m_LineBuffer.pos = 0
          ∧ w1.events = (lineWorld 4).events :=
  ⟨(onRead_overflow_drops 4 (lineWorld 4) 0 (mallocLineBuffer 4) rfl rfl rfl rfl rfl
      (by decide)).1 [120, 10, 99, 100, 101, 102, 103] (by decide) (by decide),
    (onRead_overflow_drops 4 (lineWorld 4) 0 (mallocLineBuffer 4) rfl rfl rfl rfl rfl
      (by decide)).2 [[97, 98, 99]] [100, 101] (by decide) (by decide) (by decide)
      (by decide)⟩

/-! ## The occupancy bound (C5) -/

theorem LineBufferOk_put (cap : Nat) (w : World) (this : Addr) (mem : List Byte) (pos : Nat)
    (es : List Event) (hcap : mem.length = cap) (hpos : pos ≤ cap) :
    LineBufferOk cap (w.put this { data := some mem, pos := pos } es) this := by
  unfold LineBufferOk
  rw [World.put_lineBuffer]
  exact ⟨hpos, hcap⟩

theorem LineBufferOk_dispatch (cap : Nat) (w : World) (this : Addr) (e : Event)
    (h : LineBufferOk cap w this) : LineBufferOk cap (w.dispatch e) this := h

theorem LineBufferOk_call (cap : Nat) (w : World) (this : Addr) (c : TransportCall)
    (h : LineBufferOk cap w this) : LineBufferOk cap (w.call c) this := h

theorem LineBufferOk_report (cap : Nat) (w : World) (this : Addr) (d : Diag)
    (h : LineBufferOk cap w this) : LineBufferOk cap (w.report d) this := h

/-- The chunk handler keeps the line buffer well formed, and returns. -/
theorem onRead_LineBufferOk (cap : Nat) (w : World) (this : Addr) (data : List Byte)
    (h : LineBufferOk cap w this) :
    ∃ w1, onRead cap w this data = .ok w1 ∧ LineBufferOk cap w1 this := by
  by_cases hcall : isJSCallable w this = true
  · by_cases hbin : (getFlags w this).binary = true
    · exact ⟨w.dispatch (.onread this (.arrayBuffer data)), by simp [onRead, hcall, hbin],
        LineBufferOk_dispatch _ _ _ _ h⟩
    · by_cases hrl : (getFlags w this).readline = true
      · simp only [Bool.not_eq_true] at hbin
        obtain ⟨hpos, hdata⟩ := h
        cases hl : (w.objs this).m_LineBuffer with
        | mk d p =>
          rw [hl] at hpos hdata
          cases d with
          | none => simp only [hrl, Bool.true_eq_false] at hdata
          | some mem =>
            simp only at hpos hdata
            rw [onRead_line cap w this data mem p hcall hbin hrl hl hdata hpos]
            refine ⟨_, rfl, ?_⟩
            generalize hp1 : (if getFrameDelimiter w this ∈ data then 0 else p) = pos1
            have hpos1 : pos1 ≤ cap := by
              rw [← hp1]; split <;> omega
            generalize pending (getFrameDelimiter w this) [] data = rest
            by_cases h1 : rest.length ≠ 0 ∧ rest.length + pos1 ≤ cap
            · rw [if_pos h1]
              exact LineBufferOk_put _ _ _ _ _ _
                ((length_memcpy _ _ _ (by omega)).trans hdata) (by omega)
            · rw [if_neg h1]
              by_cases h2 : rest.length ≠ 0
              · rw [if_pos h2]
                exact LineBufferOk_put _ _ _ _ _ _ hdata (Nat.zero_le _)
              · rw [if_neg h2]
                exact LineBufferOk_put _ _ _ _ _ _ hdata hpos1
      · simp only [Bool.not_eq_true] at hbin hrl
        exact ⟨w.dispatch (.onread this (.string data)), by simp [onRead, hcall, hbin, hrl],
          LineBufferOk_dispatch _ _ _ _ h⟩
  · simp only [Bool.not_eq_true] at hcall
    exact ⟨w, by simp [onRead, hcall], h⟩

/-- Replacing the session by one with the same parent and the same line buffer, whose
line-delimited flag is unchanged or cleared, keeps the line buffer well formed. -/
theorem LineBufferOk_setObj (cap : Nat) (w : World) (this : Addr) (s1 : JSSocket)
    (h : LineBufferOk cap w this)
    (hp : s1.m_ParentServer = (w.objs this).m_ParentServer)
    (hl : s1.m_LineBuffer = (w.objs this).m_LineBuffer)
    (hf : s1.m_Flags.readline = (w.objs this).m_Flags.readline ∨ s1.m_Flags.readline = false) :
    LineBufferOk cap (w.setObj this s1) this := by
  obtain ⟨hpos, hdata⟩ := h
  have hflag : (getFlags (w.setObj this s1) this).readline = true →
      (getFlags w this).readline = true := by
    unfold getFlags
    simp only [World.setObj, Function.update_same, hp]
    cases hpar : (w.objs this).m_ParentServer with
    | none =>
      simp only
      intro h1
      rcases hf with hf | hf
      · rw [← hf]; exact h1
      · rw [hf] at h1; cases h1
    | some q =>
      simp only
      by_cases hq : q = this
      · subst hq
        simp only [Function.update_same]
        intro h1
        rcases hf with hf | hf
        · rw [← hf]; exact h1
        · rw [hf] at h1; cases h1
      · simp only [Function.update_noteq hq]
        exact id
  unfold LineBufferOk
  simp only [World.setObj, Function.update_same, hl]
  refine ⟨hpos, ?_⟩
  cases hd : (w.objs this).m_LineBuffer.data with
  | some mem => rw [hd] at hdata; exact hdata
  | none =>
    rw [hd] at hdata
    simp only at hdata ⊢
    cases hr : (getFlags { w with objs := Function.update w.objs this s1 } this).readline with
    | false => rfl
    | true =>
      have := hflag hr
      rw [hdata] at this
      cases this

/-- Replacing the session by one whose line buffer is a block of `cap` bytes with an
occupancy within `cap` gives a well-formed line buffer. -/
theorem LineBufferOk_setObj_alloc (cap : Nat) (w : World) (this : Addr) (s1 : JSSocket)
    (mem : List Byte) (hd : s1.m_LineBuffer.data = some mem) (hcap : mem.length = cap)
    (hpos : s1.m_LineBuffer.pos ≤ cap) :
    LineBufferOk cap (w.setObj this s1) this := by
  unfold LineBufferOk
  simp only [World.setObj, Function.update_same, hd]
  exact ⟨hpos, hcap⟩

/-- Every property setter keeps the line buffer well formed. -/
theorem prop_set_LineBufferOk (cap : Nat) (w : World) (this : Addr) (id : SocketProp)
    (vp : JSVal) (timeoutOk : Bool) (h : LineBufferOk cap w this) :
    LineBufferOk cap (nidium_socket_prop_set cap w (some this) id vp timeoutOk).world this := by
  unfold nidium_socket_prop_set
  cases id with
  | Binary =>
    simp only
    split
    · exact LineBufferOk_setObj cap w this _ h rfl rfl (Or.inl rfl)
    · exact h
  | Readline =>
    simp only
    split
    · cases hd : (w.objs this).m_LineBuffer.data with
      | none =>
        exact LineBufferOk_setObj_alloc cap w this _ (mallocLineBuffer cap)
          (by simp [hd]) (length_mallocLineBuffer cap) (by simp [hd])
      | some mem =>
        have hm : mem.length = cap := by
          have := h.2
          rw [hd] at this
          exact this
        exact LineBufferOk_setObj_alloc cap w this _ mem (by simp [hd]) hm
          (by simp [hd]; exact h.1)
    · exact LineBufferOk_setObj cap w this _ h rfl rfl (Or.inr rfl)
  | Encoding =>
    simp only
    split
    · exact LineBufferOk_setObj cap w this _ h rfl rfl (Or.inl rfl)
    · exact h
  | Timeout =>
    simp only
    split
    · have h1 := LineBufferOk_setObj cap w this
        { w.objs this with m_TCPTimeout := APE_ABS vp.toInt32 } h rfl rfl (Or.inl rfl)
      split
      · simp only
        split
        · exact LineBufferOk_call _ _ _ _ h1
        · exact LineBufferOk_report _ _ _ _ (LineBufferOk_call _ _ _ _ h1)
      · exact h1
    · exact h
  | END => exact h

/-- C5: on a session whose line buffer is as the constructor, the `readline` setter or accept
leave it, every sequence of `onRead` calls (chunks of any length and content) and property
setter calls on the session returns (no copy is made outside the buffer), and afterwards,
hence after each call of the sequence, the occupancy is at most `cap = SOCKET_LINEBUFFER_MAX`
and the buffer, when allocated, is still a block of `cap` bytes. -/
theorem runOps_occupancy_le (cap : Nat) (this : Addr) (ops : List SessionOp) :
    ∀ w : World, LineBufferOk cap w this →
      ∃ w1, runOps cap this w ops = .ok w1
        ∧ (w1.objs this).m_LineBuffer.pos ≤ cap
        ∧ (∀ mem, (w1.objs this).m_LineBuffer.data = some mem → mem.length = cap)
        ∧ LineBufferOk cap w1 this := by
  induction ops with
  | nil =>
    intro w h
    refine ⟨w, rfl, h.1, ?_, h⟩
    intro mem hm
    have := h.2
    rw [hm] at this
    exact this
  | cons op ops ih =>
    intro w h
    have hstep : ∃ w1, op.apply cap this w = .ok w1 ∧ LineBufferOk cap w1 this := by
      cases op with
      | read chunk => exact onRead_LineBufferOk cap w this chunk h
      | set id vp timeoutOk => exact ⟨_, rfl, prop_set_LineBufferOk cap w this id vp timeoutOk h⟩
    obtain ⟨w1, h1, hok1⟩ := hstep
    obtain ⟨w2, h2, hrest⟩ := ih w1 hok1
    exact ⟨w2, by simp only [runOps, h1, h2], hrest⟩

/-- A run of C5 from the constructor's state, with a line buffer of 4 bytes: a chunk before
line-delimited mode, `readline = true`, a chunk longer than the buffer, a chunk that fits,
`readline = false`. -/
theorem runOps_occupancy_le_witness :
    ∃ w1, runOps 4 0 freshWorld
        [.read [97], .set .Readline (.boolean true) true, .read [97, 98, 99, 100, 101],
          .read [97, 98, 10, 99], .set .Readline (.boolean false) true] = .ok w1
      ∧ (w1.objs 0).m_LineBuffer.pos ≤ 4
      ∧ (∀ mem, (w1.objs 0).m_LineBuffer.data = some mem → mem.length = 4)
      ∧ LineBufferOk 4 w1 0 :=
  runOps_occupancy_le 4 0 _ freshWorld (by decide)

/-! ## Operations on a detached session (C6, C7) -/

/-- The operations that test for a transport handle: on a detached session, graceful
shutdown, write (core and host-facing), sendTo, sendFile and close leave the list of
transport calls as it is. -/
theorem detached_guarded_ops_no_call (w : World) (this : Addr)
    (hdet : isAttached w this = false) (data : List Byte) (ret : Int) (args : List JSVal)
    (file : Option (List Byte)) :
    (shutdown w this).calls = w.calls
      ∧ (JSSocket.write w this data ret).2.calls = w.calls
      ∧ (nidium_socket_write w this args ret).world.calls = w.calls
      ∧ (nidium_socket_client_write w this args ret).world.calls = w.calls
      ∧ (nidium_socket_sendto w (some this) args).world.calls = w.calls
      ∧ (nidium_socket_client_sendFile w this args file).world.calls = w.calls
      ∧ (nidium_socket_close w this).world.calls = w.calls
      ∧ (nidium_socket_client_close w this).world.calls = w.calls := by
  have hs : (w.objs this).m_Socket = none := by
    unfold isAttached at hdet
    cases h : (w.objs this).m_Socket with
    | none => rfl
    | some x => rw [h] at hdet; cases hdet
  refine ⟨?_, ?_, ?_, ?_, ?_, ?_, ?_, ?_⟩
  · simp [shutdown, hs]
  · simp [JSSocket.write, hs]
  · unfold nidium_socket_write socketWriteBody
    split
    · rfl
    · simp [hdet, World.report]
  · unfold nidium_socket_client_write socketWriteBody
    split
    · rfl
    · simp [hdet, World.report]
  · unfold nidium_socket_sendto
    split
    · rfl
    · simp [hdet]
  · unfold nidium_socket_client_sendFile
    split
    · rfl
    · simp [hdet, World.report]
  · simp [nidium_socket_close, socketCloseBody, hdet, World.report]
  · simp [nidium_socket_client_close, socketCloseBody, hdet, World.report]

/-- C6, as amended: on a detached session, for every payload, the host-facing `Socket.write`
and `SocketClient.write` succeed with the return value -1 and make no transport call; the
core `JSSocket::write` makes no transport call either (it leaves the world as it is) and
returns 0. -/
theorem write_detached (w : World) (this : Addr) (hdet : isAttached w this = false)
    (data : List Byte) (payload : JSVal) (rest : List JSVal) (ret : Int) :
    JSSocket.write w this data ret = (0, w)
      ∧ (nidium_socket_write w this (payload :: rest) ret).ok = true
      ∧ (nidium_socket_write w this (payload :: rest) ret).rval = .int32 (-1)
      ∧ (nidium_socket_write w this (payload :: rest) ret).world.calls = w.calls
      ∧ (nidium_socket_client_write w this (payload :: rest) ret).ok = true
      ∧ (nidium_socket_client_write w this (payload :: rest) ret).rval = .int32 (-1)
      ∧ (nidium_socket_client_write w this (payload :: rest) ret).world.calls = w.calls := by
  have hs : (w.objs this).m_Socket = none := by
    unfold isAttached at hdet
    cases h : (w.objs this).m_Socket with
    | none => rfl
    | some x => rw [h] at hdet; cases hdet
  have hargs : checkArgs (payload :: rest) 1 = true := by
    simp [checkArgs]
  refine ⟨?_, ?_, ?_, ?_, ?_, ?_, ?_⟩ <;>
    simp [JSSocket.write, hs, nidium_socket_write, nidium_socket_client_write, socketWriteBody,
      hargs, hdet, World.report]

/-- A run of C6: writes of "hi" on the freshly constructed, never connected session. -/
theorem write_detached_witness :
    JSSocket.write freshWorld 0 [104, 105] 2 = (0, freshWorld)
      ∧ (nidium_socket_write freshWorld 0 [.string [104, 105]] 2).ok = true
      ∧ (nidium_socket_write freshWorld 0 [.string [104, 105]] 2).rval = .int32 (-1)
      ∧ (nidium_socket_write freshWorld 0 [.string [104, 105]] 2).world.calls
        = freshWorld.calls
      ∧ (nidium_socket_client_write freshWorld 0 [.string [104, 105]] 2).ok = true
      ∧ (nidium_socket_client_write freshWorld 0 [.string [104, 105]] 2).rval = .int32 (-1)
      ∧ (nidium_socket_client_write freshWorld 0 [.string [104, 105]] 2).world.calls
        = freshWorld.calls :=
  write_detached freshWorld 0 rfl [104, 105] (.string [104, 105]) [] 2

/-- C6 fails as stated: on the freshly constructed, never connected session the core
`JSSocket::write` of "hi" returns 0, not the sentinel -1. -/
theorem core_write_detached_returns_zero :
    isAttached freshWorld 0 = false
      ∧ (JSSocket.write freshWorld 0 [104, 105] 2).1 = 0
      ∧ (JSSocket.write freshWorld 0 [104, 105] 2).1 ≠ -1 := by
  refine ⟨rfl, rfl, ?_⟩
  decide

/-- C7 at the failing input: on the freshly constructed, never connected session,
`JSSocket::disconnect` calls `APE_socket_shutdown_now` with the null handle, where
`JSSocket::shutdown` on the same session makes no call. -/
theorem disconnect_detached_calls_transport :
    isAttached freshWorld 0 = false
      ∧ (disconnect freshWorld 0).calls = [TransportCall.socket_shutdown_now none]
      ∧ (shutdown freshWorld 0).calls = [] := by
  refine ⟨rfl, rfl, rfl⟩

/-! ## Failure of listen and connect (C8) -/

theorem applyTimeout_objs (w : World) (this h : Addr) (timeoutOk : Bool) :
    (applyTimeout w this h timeoutOk).objs = w.objs := by
  unfold applyTimeout
  split
  · simp only
    split <;> rfl
  · rfl

/-- Whatever the session, the arguments and the handle the transport hands out: when the
transport's listen call fails, `listen` reports an error and leaves the session attached to
the new handle, the Server flag as it was. -/
theorem listen_failure_attached (w : World) (this : Addr) (args : List JSVal) (h : Addr)
    (timeoutOk : Bool) (hdet : isAttached w this = false) :
    (nidium_socket_listen w this args (some h) timeoutOk (-1)).ok = false
      ∧ ((nidium_socket_listen w this args (some h) timeoutOk (-1)).world.objs this).m_Socket
        = some h
      ∧ ((nidium_socket_listen w this args (some h) timeoutOk (-1)).world.objs this).m_Flags
        = (w.objs this).m_Flags := by
  simp [nidium_socket_listen, hdet, World.report, World.call, applyTimeout_objs, World.setObj,
    World.setSock]

/-- The same for `connect` when the transport's connect call fails. -/
theorem connect_failure_attached (w : World) (this : Addr) (args : List JSVal) (h : Addr)
    (timeoutOk : Bool) (hdet : isAttached w this = false) :
    (nidium_socket_connect w this args (some h) timeoutOk (-1)).ok = false
      ∧ ((nidium_socket_connect w this args (some h) timeoutOk (-1)).world.objs this).m_Socket
        = some h
      ∧ ((nidium_socket_connect w this args (some h) timeoutOk (-1)).world.objs this).m_Flags
        = (w.objs this).m_Flags := by
  simp only [nidium_socket_connect, hdet, Bool.false_eq_true, if_false, if_true]
  refine ⟨trivial, ?_, ?_⟩ <;>
    (split <;> simp [World.report, World.call, applyTimeout_objs, World.setObj, World.setSock])

/-- On every detached session `JSSocket::disconnect` hands the null handle to
`APE_socket_shutdown_now`. -/
theorem disconnect_detached_null (w : World) (this : Addr) (hdet : isAttached w this = false) :
    (disconnect w this).calls = w.calls ++ [TransportCall.socket_shutdown_now none] := by
  have hs : (w.objs this).m_Socket = none := by
    unfold isAttached at hdet
    cases h : (w.objs this).m_Socket with
    | none => rfl
    | some x => rw [h] at hdet; cases hdet
  simp [disconnect, World.call, hs]

/-- C8 at the failing input: `listen` on the fresh session, the transport's listen call
failing, reports an error and leaves the Server flag unset, but the session is attached to
the new handle; a second `listen` then succeeds without any transport call. The same holds
for `connect`, whose second call is rejected without any transport call. -/
theorem listen_failure_leaves_attached :
    isAttached freshWorld 0 = false
      ∧ (nidium_socket_listen freshWorld 0 [] (some 5) true (-1)).ok = false
      ∧ isAttached (nidium_socket_listen freshWorld 0 [] (some 5) true (-1)).world 0 = true
      ∧ ((nidium_socket_listen freshWorld 0 [] (some 5) true (-1)).world.objs 0).m_Flags.server
        = false
      ∧ (nidium_socket_listen (nidium_socket_listen freshWorld 0 [] (some 5) true (-1)).world
          0 [] (some 7) true 0).ok = true
      ∧ (nidium_socket_listen (nidium_socket_listen freshWorld 0 [] (some 5) true (-1)).world
          0 [] (some 7) true 0).world.calls
        = (nidium_socket_listen freshWorld 0 [] (some 5) true (-1)).world.calls
      ∧ (nidium_socket_connect freshWorld 0 [] (some 5) true (-1)).ok = false
      ∧ isAttached (nidium_socket_connect freshWorld 0 [] (some 5) true (-1)).world 0 = true
      ∧ (nidium_socket_connect (nidium_socket_connect freshWorld 0 [] (some 5) true (-1)).world
          0 [] (some 7) true 0).world.calls
        = (nidium_socket_connect freshWorld 0 [] (some 5) true (-1)).world.calls := by
  refine ⟨rfl, rfl, rfl, rfl, rfl, rfl, rfl, rfl, rfl⟩

/-! ## Disconnection reported by the transport (C9) -/

theorem dettach_detaches (w : World) (this h : Addr) (hs : (w.objs this).m_Socket = some h) :
    isAttached (dettach w this) this = false ∧ ((dettach w this).socks h).ctx = none := by
  simp [dettach, hs, isAttached, World.setObj, World.setSock]

/-- C9, as amended: let a session be attached to a handle that refers back to it, and be
callable. If it is a directly created client, its handle carrying the disconnect callback
`connect` installs, `nidium_socket_wrapper_disconnect`, or a server-accepted child whose
parent server is callable, its handle carrying the callback of the accepted sockets,
`nidium_socket_wrapper_client_disconnect`, then the transport's report of the disconnection
runs that callback, which returns and leaves the session detached, the handle's
back-reference cleared. -/
theorem disconnect_callback_detaches (w : World) (this h : Addr)
    (hs : (w.objs this).m_Socket = some h)
    (hctx : (w.socks h).ctx = some this)
    (hcall : isJSCallable w this = true) :
    ((w.socks h).on_disconnect = some .wrapper_disconnect →
        transportDisconnected w h = .ok (nidium_socket_wrapper_disconnect w h)
          ∧ isAttached (nidium_socket_wrapper_disconnect w h) this = false
          ∧ ((nidium_socket_wrapper_disconnect w h).socks h).ctx = none)
      ∧ ∀ p, (w.socks h).on_disconnect = some .wrapper_client_disconnect →
          (w.objs this).m_ParentServer = some p → isJSCallable w p = true →
          ∃ w1, transportDisconnected w h = .ok w1
            ∧ nidium_socket_wrapper_client_disconnect w h = .ok w1
            ∧ isAttached w1 this = false
            ∧ (w1.socks h).ctx = none := by
  constructor
  · intro hcb
    refine ⟨by simp [transportDisconnected, hcb], ?_⟩
    simp only [nidium_socket_wrapper_disconnect, hctx, hcall, Bool.true_eq_false, if_false]
    exact dettach_detaches w this h hs
  · intro p hcb hp hpc
    have hobj : ∃ o, getJSObject w this = some o := by
      unfold isJSCallable at hcall
      rw [hp] at hcall
      simp only at hcall
      cases ho : getJSObject w this with
      | some o => exact ⟨o, rfl⟩
      | none =>
        rw [ho] at hcall
        split at hcall <;> cases hcall
    obtain ⟨o, ho⟩ := hobj
    have hrun : nidium_socket_wrapper_client_disconnect w h
        = .ok ((dettach w this).dispatch (.ondisconnect this)) := by
      simp [nidium_socket_wrapper_client_disconnect, hctx, isClientFromOwnServer,
        getParentServer, hp, hpc, ho]
    refine ⟨(dettach w this).dispatch (.ondisconnect this), ?_, hrun, ?_, ?_⟩
    · simp [transportDisconnected, hcb, hrun]
    · exact (dettach_detaches w this h hs).1
    · exact (dettach_detaches w this h hs).2

/-- Two runs of C9: the transport reports the disconnection of the connected client's
handle 5, and of the accepted child's handle 6. -/
theorem disconnect_callback_detaches_witness :
    (transportDisconnected connectedWorld 5
          = .ok (nidium_socket_wrapper_disconnect connectedWorld 5)
        ∧ isAttached (nidium_socket_wrapper_disconnect connectedWorld 5) 0 = false
        ∧ ((nidium_socket_wrapper_disconnect connectedWorld 5).socks 5).ctx = none)
      ∧ ∃ w1, transportDisconnected (peerWorld 8192) 6 = .ok w1
          ∧ nidium_socket_wrapper_client_disconnect (peerWorld 8192) 6 = .ok w1
          ∧ isAttached w1 1 = false
          ∧ (w1.socks 6).ctx = none :=
  ⟨(disconnect_callback_detaches connectedWorld 0 5 rfl rfl rfl).1 rfl,
    (disconnect_callback_detaches (peerWorld 8192) 1 6 rfl rfl rfl).2 0 rfl rfl rfl⟩

/-- C9 fails as stated, in three attached sessions whose handle refers back to them. The
accepted child whose server's host-side object is gone: the transport reports the
disconnection of its handle 6, the handle's callback
`nidium_socket_wrapper_client_disconnect` returns at its callability test, and the child is
still attached, the handle still referring to it. The connected client whose own host-side
object is gone: the same with `nidium_socket_wrapper_disconnect` on its handle 5. And the
listening server, callable: the callback `listen` installs on its handle 5 is
`nidium_socket_wrapper_client_disconnect`, which returns because the server has no parent
server, and the server is still attached. -/
theorem disconnect_callback_skips_not_callable :
    (isAttached (orphanPeerWorld 8192) 1 = true
        ∧ ((orphanPeerWorld 8192).socks 6).ctx = some 1
        ∧ ((orphanPeerWorld 8192).socks 6).on_disconnect = some .wrapper_client_disconnect
        ∧ ∃ w1, transportDisconnected (orphanPeerWorld 8192) 6 = .ok w1
            ∧ nidium_socket_wrapper_client_disconnect (orphanPeerWorld 8192) 6 = .ok w1
            ∧ isAttached w1 1 = true
            ∧ (w1.socks 6).ctx = some 1)
      ∧ (isAttached orphanClientWorld 0 = true
        ∧ (orphanClientWorld.socks 5).ctx = some 0
        ∧ (orphanClientWorld.socks 5).on_disconnect = some .wrapper_disconnect
        ∧ ∃ w1, transportDisconnected orphanClientWorld 5 = .ok w1
            ∧ w1 = nidium_socket_wrapper_disconnect orphanClientWorld 5
            ∧ isAttached w1 0 = true
            ∧ (w1.socks 5).ctx = some 0)
      ∧ (isAttached listeningWorld 0 = true
        ∧ (listeningWorld.socks 5).ctx = some 0
        ∧ isJSCallable listeningWorld 0 = true
        ∧ (listeningWorld.socks 5).on_disconnect = some .wrapper_client_disconnect
        ∧ ∃ w1, transportDisconnected listeningWorld 5 = .ok w1
            ∧ isAttached w1 0 = true
            ∧ (w1.socks 5).ctx = some 0) := by
  refine ⟨⟨rfl, rfl, rfl, orphanPeerWorld 8192, rfl, rfl, rfl, rfl⟩,
    ⟨rfl, rfl, rfl, orphanClientWorld, rfl, rfl, rfl, rfl⟩,
    ⟨rfl, rfl, rfl, rfl, listeningWorld, rfl, rfl, rfl⟩⟩

/-! ## Callability (C10) -/

/-- C10: on a session that is not callable, `onRead` with any chunk, called directly or
through either transport data callback of a handle that refers to the session, returns the
world as it was: no event is dispatched and the line buffer is untouched. And a session is
callable exactly when its host-side object is live and, if it has a parent server, the
parent's host-side object is live. -/
theorem onRead_not_callable (cap : Nat) (w : World) (this : Addr) :
    (isJSCallable w this = false →
        ∀ data : List Byte,
          onRead cap w this data = .ok w
            ∧ ∀ h, (w.socks h).ctx = some this →
                nidium_socket_wrapper_read cap w h data = .ok w
                  ∧ nidium_socket_wrapper_client_read cap w h data = .ok w)
      ∧ (isJSCallable w this = true
          ↔ (getJSObject w this).isSome = true
            ∧ ∀ p, (w.objs this).m_ParentServer = some p → (getJSObject w p).isSome = true) := by
  constructor
  · intro hnc data
    have h1 : onRead cap w this data = .ok w := by
      simp [onRead, hnc]
    refine ⟨h1, ?_⟩
    intro h hctx
    simp [nidium_socket_wrapper_read, nidium_socket_wrapper_client_read, hctx, hnc, h1]
  · unfold isJSCallable
    cases hp : (w.objs this).m_ParentServer with
    | none => simp
    | some p =>
      cases hq : getJSObject w p with
      | none => simp [hq]
      | some o => simp [hq]

/-- A run of C10: the accepted child whose server's host-side object is gone is not callable,
and a chunk delivered to it changes nothing. -/
theorem onRead_not_callable_witness :
    (onRead 8192 (orphanWorld 8192) 1 [97, 10] = .ok (orphanWorld 8192)
        ∧ ∀ h, ((orphanWorld 8192).socks h).ctx = some 1 →
            nidium_socket_wrapper_read 8192 (orphanWorld 8192) h [97, 10]
                = .ok (orphanWorld 8192)
              ∧ nidium_socket_wrapper_client_read 8192 (orphanWorld 8192) h [97, 10]
                = .ok (orphanWorld 8192))
      ∧ (isJSCallable (acceptedWorld 8192) 1 = true
          ↔ (getJSObject (acceptedWorld 8192) 1).isSome = true
            ∧ ∀ p, ((acceptedWorld 8192).objs 1).m_ParentServer = some p →
                (getJSObject (acceptedWorld 8192) p).isSome = true) :=
  ⟨(onRead_not_callable 8192 (orphanWorld 8192) 1).1 rfl [97, 10],
    (onRead_not_callable 8192 (acceptedWorld 8192) 1).2⟩

/-! ## Detaching (C11) -/

theorem dettach_of_none (w : World) (this : Addr) (h : (w.objs this).m_Socket = none) :
    dettach w this = w := by
  simp [dettach, h]

/-- C11: `dettach` is idempotent: applied twice it gives the world it gives applied once, and
on a detached session it changes nothing; on a session attached to the handle `h` it clears
the session's transport reference and the handle's back-reference and nothing else: the
session keeps its flags, delimiter, timeout, encoding, parent reference, line buffer (and
host, port, host-side object), and every other session and handle, the events, the transport
calls and the diagnostics are as before. -/
theorem dettach_idempotent (w : World) (this : Addr) :
    dettach (dettach w this) this = dettach w this
      ∧ (isAttached w this = false → dettach w this = w)
      ∧ ∀ h, (w.objs this).m_Socket = some h →
          (dettach w this).objs this = { w.objs this with m_Socket := none }
            ∧ ((dettach w this).objs this).m_Flags = (w.objs this).m_Flags
            ∧ ((dettach w this).objs this).m_FrameDelimiter = (w.objs this).m_FrameDelimiter
            ∧ ((dettach w this).objs this).m_TCPTimeout = (w.objs this).m_TCPTimeout
            ∧ ((dettach w this).objs this).m_Encoding = (w.objs this).m_Encoding
            ∧ ((dettach w this).objs this).m_ParentServer = (w.objs this).m_ParentServer
            ∧ ((dettach w this).objs this).m_LineBuffer = (w.objs this).m_LineBuffer
            ∧ (∀ a, a ≠ this → (dettach w this).objs a = w.objs a)
            ∧ (dettach w this).socks h = { w.socks h with ctx := none }
            ∧ (∀ k, k ≠ h → (dettach w this).socks k = w.socks k)
            ∧ (dettach w this).events = w.events
            ∧ (dettach w this).calls = w.calls
            ∧ (dettach w this).diags = w.diags := by
  refine ⟨?_, ?_, ?_⟩
  · cases hs : (w.objs this).m_Socket with
    | none => simp [dettach, hs]
    | some h =>
      have h1 : ((dettach w this).objs this).m_Socket = none := by
        simp [dettach, hs, World.setObj, World.setSock]
      exact dettach_of_none _ _ h1
  · intro hdet
    unfold isAttached at hdet
    cases hs : (w.objs this).m_Socket with
    | none => simp [dettach, hs]
    | some h => rw [hs] at hdet; cases hdet
  · intro h hs
    have hobj : (dettach w this).objs this = { w.objs this with m_Socket := none } := by
      simp [dettach, hs, World.setObj, World.setSock]
    refine ⟨hobj, by rw [hobj], by rw [hobj], by rw [hobj], by rw [hobj], by rw [hobj],
      by rw [hobj], ?_, ?_, ?_, ?_, ?_, ?_⟩
    · intro a ha
      simp [dettach, hs, World.setObj, World.setSock, Function.update_noteq ha]
    · simp [dettach, hs, World.setObj, World.setSock]
    · intro k hk
      simp [dettach, hs, World.setObj, World.setSock, Function.update_noteq hk]
    · simp [dettach, hs, World.setObj, World.setSock]
    · simp [dettach, hs, World.setObj, World.setSock]
    · simp [dettach, hs, World.setObj, World.setSock]

/-- Two runs of C11: `dettach` on the never connected session changes nothing, and on the
connected client, attached to the handle 5, it clears the two references only. -/
theorem dettach_idempotent_witness :
    dettach freshWorld 0 = freshWorld
      ∧ dettach (dettach connectedWorld 0) 0 = dettach connectedWorld 0
      ∧ (dettach connectedWorld 0).objs 0 = { connectedWorld.objs 0 with m_Socket := none }
      ∧ ((dettach connectedWorld 0).objs 0).m_LineBuffer = (connectedWorld.objs 0).m_LineBuffer
      ∧ (dettach connectedWorld 0).socks 5 = { connectedWorld.socks 5 with ctx := none } :=
  ⟨(dettach_idempotent freshWorld 0).2.1 rfl,
    (dettach_idempotent connectedWorld 0).1,
    ((dettach_idempotent connectedWorld 0).2.2 5 rfl).1,
    ((dettach_idempotent connectedWorld 0).2.2 5 rfl).2.2.2.2.2.2.1,
    ((dettach_idempotent connectedWorld 0).2.2 5 rfl).2.2.2.2.2.2.2.2.1⟩

/-! ## Listen and connect on an attached session (C12) -/

/-- C12: on an attached session, `listen` and `connect` leave the world exactly as it is,
whatever the arguments and whatever the transport would answer: no transport call of any
kind, the same handle, flags and timeout. `connect` returns `false`; `listen` returns `true`
without a return value. -/
theorem listen_connect_attached (w : World) (this : Addr) (args : List JSVal)
    (newSock : Option Addr) (timeoutOk : Bool) (ret : Int)
    (hatt : isAttached w this = true) :
    (nidium_socket_listen w this args newSock timeoutOk ret).world = w
      ∧ (nidium_socket_listen w this args newSock timeoutOk ret).ok = true
      ∧ (nidium_socket_listen w this args newSock timeoutOk ret).rval = .undefined
      ∧ (nidium_socket_connect w this args newSock timeoutOk ret).world = w
      ∧ (nidium_socket_connect w this args newSock timeoutOk ret).ok = false
      ∧ (nidium_socket_listen w this args newSock timeoutOk ret).world.calls = w.calls
      ∧ (nidium_socket_connect w this args newSock timeoutOk ret).world.calls = w.calls
      ∧ ((nidium_socket_listen w this args newSock timeoutOk ret).world.objs this)
        = w.objs this
      ∧ ((nidium_socket_connect w this args newSock timeoutOk ret).world.objs this)
        = w.objs this := by
  simp [nidium_socket_listen, nidium_socket_connect, hatt]

/-- A run of C12: a second `listen("udp")` and a `connect()` on the listening server. -/
theorem listen_connect_attached_witness :
    (nidium_socket_listen listeningWorld 0 [.string [117, 100, 112]] (some 9) true 0).world
        = listeningWorld
      ∧ (nidium_socket_listen listeningWorld 0 [.string [117, 100, 112]] (some 9) true 0).ok
        = true
      ∧ (nidium_socket_listen listeningWorld 0 [.string [117, 100, 112]] (some 9) true 0).rval
        = .undefined
      ∧ (nidium_socket_connect listeningWorld 0 [.string [117, 100, 112]] (some 9) true 0).world
        = listeningWorld
      ∧ (nidium_socket_connect listeningWorld 0 [.string [117, 100, 112]] (some 9) true 0).ok
        = false
      ∧ (nidium_socket_listen listeningWorld 0 [.string [117, 100, 112]] (some 9) true
          0).world.calls = listeningWorld.calls
      ∧ (nidium_socket_connect listeningWorld 0 [.string [117, 100, 112]] (some 9) true
          0).world.calls = listeningWorld.calls
      ∧ ((nidium_socket_listen listeningWorld 0 [.string [117, 100, 112]] (some 9) true
          0).world.objs 0) = listeningWorld.objs 0
      ∧ ((nidium_socket_connect listeningWorld 0 [.string [117, 100, 112]] (some 9) true
          0).world.objs 0) = listeningWorld.objs 0 :=
  listen_connect_attached listeningWorld 0 [.string [117, 100, 112]] (some 9) true 0 rfl

/-! ## Payloads that cannot be serialized (C13) -/

/-- C13: on an attached session, `Socket.write` and `SocketClient.write` with a payload that
is neither a string nor an `ArrayBuffer` return `false` with an error reported and make no
transport call; so does `sendTo` with such a payload on an attached server, whatever the
address and port arguments. -/
theorem invalid_payload_rejected (w : World) (this : Addr) (payload : JSVal)
    (rest : List JSVal) (ret : Int)
    (hatt : isAttached w this = true) (hinv : invalidPayload payload = true) :
    ((nidium_socket_write w this (payload :: rest) ret).ok = false
        ∧ (nidium_socket_write w this (payload :: rest) ret).world.calls = w.calls
        ∧ ∃ m, (nidium_socket_write w this (payload :: rest) ret).world.diags
            = w.diags ++ [.error m])
      ∧ ((nidium_socket_client_write w this (payload :: rest) ret).ok = false
        ∧ (nidium_socket_client_write w this (payload :: rest) ret).world.calls = w.calls
        ∧ ∃ m, (nidium_socket_client_write w this (payload :: rest) ret).world.diags
            = w.diags ++ [.error m])
      ∧ ∀ ip port : JSVal, (w.objs this).m_Flags.server = true →
          (nidium_socket_sendto w (some this) (ip :: port :: payload :: rest)).ok = false
            ∧ (nidium_socket_sendto w (some this) (ip :: port :: payload :: rest)).world.calls
              = w.calls
            ∧ ∃ m, (nidium_socket_sendto w (some this)
                (ip :: port :: payload :: rest)).world.diags = w.diags ++ [.error m] := by
  have hargs1 : checkArgs (payload :: rest) 1 = true := by simp [checkArgs]
  have hwrite : (socketWriteBody w this (payload :: rest) ret).ok = false
      ∧ (socketWriteBody w this (payload :: rest) ret).world.calls = w.calls
      ∧ ∃ m, (socketWriteBody w this (payload :: rest) ret).world.diags
          = w.diags ++ [.error m] := by
    cases payload with
    | string b => simp [invalidPayload] at hinv
    | object o =>
      cases o with
      | some b => simp [invalidPayload] at hinv
      | none => simp [socketWriteBody, hargs1, hatt, argAt, World.report]
    | undefined => simp [socketWriteBody, hargs1, hatt, argAt, World.report]
    | null => simp [socketWriteBody, hargs1, hatt, argAt, World.report]
    | boolean b => simp [socketWriteBody, hargs1, hatt, argAt, World.report]
    | int32 i => simp [socketWriteBody, hargs1, hatt, argAt, World.report]
    | double i => simp [socketWriteBody, hargs1, hatt, argAt, World.report]
  refine ⟨hwrite, hwrite, ?_⟩
  intro ip port hserver
  have hargs3 : checkArgs (ip :: port :: payload :: rest) 3 = true := by simp [checkArgs]
  cases ip with
  | string a =>
    cases payload with
    | string b => simp [invalidPayload] at hinv
    | object o =>
      cases o with
      | some b => simp [invalidPayload] at hinv
      | none => simp [nidium_socket_sendto, hargs3, hatt, hserver, argAt, World.report]
    | undefined => simp [nidium_socket_sendto, hargs3, hatt, hserver, argAt, World.report]
    | null => simp [nidium_socket_sendto, hargs3, hatt, hserver, argAt, World.report]
    | boolean b => simp [nidium_socket_sendto, hargs3, hatt, hserver, argAt, World.report]
    | int32 i => simp [nidium_socket_sendto, hargs3, hatt, hserver, argAt, World.report]
    | double i => simp [nidium_socket_sendto, hargs3, hatt, hserver, argAt, World.report]
  | undefined => simp [nidium_socket_sendto, hargs3, hatt, hserver, argAt, World.report]
  | null => simp [nidium_socket_sendto, hargs3, hatt, hserver, argAt, World.report]
  | boolean b => simp [nidium_socket_sendto, hargs3, hatt, hserver, argAt, World.report]
  | int32 i => simp [nidium_socket_sendto, hargs3, hatt, hserver, argAt, World.report]
  | double i => simp [nidium_socket_sendto, hargs3, hatt, hserver, argAt, World.report]
  | object o => simp [nidium_socket_sendto, hargs3, hatt, hserver, argAt, World.report]

/-- A run of C13: the number 42 written on the listening server, and sent with `sendTo` to
"10.0.0.2", port 53. -/
theorem invalid_payload_rejected_witness :
    ((nidium_socket_write listeningWorld 0 [.int32 42] 0).ok = false
        ∧ (nidium_socket_write listeningWorld 0 [.int32 42] 0).world.calls
          = listeningWorld.calls
        ∧ ∃ m, (nidium_socket_write listeningWorld 0 [.int32 42] 0).world.diags
            = listeningWorld.diags ++ [.error m])
      ∧ ((nidium_socket_client_write listeningWorld 0 [.int32 42] 0).ok = false
        ∧ (nidium_socket_client_write listeningWorld 0 [.int32 42] 0).world.calls
          = listeningWorld.calls
        ∧ ∃ m, (nidium_socket_client_write listeningWorld 0 [.int32 42] 0).world.diags
            = listeningWorld.diags ++ [.error m])
      ∧ ((nidium_socket_sendto listeningWorld (some 0)
            [.string [49, 48, 46, 48, 46, 48, 46, 50], .int32 53, .int32 42]).ok = false
        ∧ (nidium_socket_sendto listeningWorld (some 0)
            [.string [49, 48, 46, 48, 46, 48, 46, 50], .int32 53, .int32 42]).world.calls
          = listeningWorld.calls
        ∧ ∃ m, (nidium_socket_sendto listeningWorld (some 0)
            [.string [49, 48, 46, 48, 46, 48, 46, 50], .int32 53, .int32 42]).world.diags
            = listeningWorld.diags ++ [.error m]) :=
  ⟨(invalid_payload_rejected listeningWorld 0 (.int32 42) [] 0 rfl rfl).1,
    (invalid_payload_rejected listeningWorld 0 (.int32 42) [] 0 rfl rfl).2.1,
    (invalid_payload_rejected listeningWorld 0 (.int32 42) [] 0 rfl rfl).2.2
      (.string [49, 48, 46, 48, 46, 48, 46, 50]) (.int32 53) rfl⟩

/-! ## The idle timeout (C14, C15) -/

theorem wrap32_of_range (i : Int) (h1 : -2 ^ 31 ≤ i) (h2 : i < 2 ^ 31) : wrap32 i = i := by
  unfold wrap32
  omega

/-- For an int32 other than the smallest, the code computes the absolute value. -/
theorem APE_ABS_int32 (i : Int) (h1 : -2 ^ 31 < i) (h2 : i < 2 ^ 31) :
    APE_ABS (JSVal.int32 i).toInt32 = |i| := by
  have hw : wrap32 i = i := wrap32_of_range i (by omega) h2
  simp only [JSVal.toInt32, hw, APE_ABS]
  split
  · rename_i hneg
    rw [abs_of_neg hneg]
    exact wrap32_of_range _ (by omega) (by omega)
  · rw [abs_of_nonneg (by omega)]

theorem numberValue_int32 (i : Int) (h1 : -2 ^ 31 ≤ i) (h2 : i < 2 ^ 31) :
    (JSVal.int32 i).numberValue = some (i : ℚ) := by
  simp only [JSVal.numberValue, wrap32_of_range i h1 h2]

/-- C14, as amended: for every session and every numeric value, the timeout setter returns
`true` and stores an int32, the absolute value the code computes from `vp.toInt32()`, as the
session's timeout, which the timeout getter then returns. On a detached session no transport
call is made and nothing is reported; on a session attached to `h` the transport's
`setTimeout` is called once on `h`, and when it fails the only effect is one warning. And the
value stored is the absolute value of `t` for every int32 number `t` other than
-2147483648. -/
theorem timeout_set_stores (cap : Nat) (w : World) (this : Addr) (vp : JSVal)
    (timeoutOk : Bool) (v0 : JSVal) (hnum : vp.isNumber = true) :
    (nidium_socket_prop_set cap w (some this) .Timeout vp timeoutOk).ok = true
      ∧ ((nidium_socket_prop_set cap w (some this) .Timeout vp timeoutOk).world.objs
          this).m_TCPTimeout = APE_ABS vp.toInt32
      ∧ (nidium_socket_prop_get
          (nidium_socket_prop_set cap w (some this) .Timeout vp timeoutOk).world
          (some this) .Timeout v0).ok = true
      ∧ (nidium_socket_prop_get
          (nidium_socket_prop_set cap w (some this) .Timeout vp timeoutOk).world
          (some this) .Timeout v0).vp = .int32 (APE_ABS vp.toInt32)
      ∧ (isAttached w this = false →
          (nidium_socket_prop_set cap w (some this) .Timeout vp timeoutOk).world.calls = w.calls
            ∧ (nidium_socket_prop_set cap w (some this) .Timeout vp timeoutOk).world.diags
              = w.diags)
      ∧ (∀ h, (w.objs this).m_Socket = some h →
          (nidium_socket_prop_set cap w (some this) .Timeout vp timeoutOk).world.calls
              = w.calls ++ [.socket_setTimeout (some h) (APE_ABS vp.toInt32)]
            ∧ (nidium_socket_prop_set cap w (some this) .Timeout vp timeoutOk).world.diags
              = if timeoutOk then w.diags
                else w.diags ++ [.warning "Couldn't set TCP timeout on socket"])
      ∧ ∀ t : Int, vp = .int32 t → -2 ^ 31 < t → t < 2 ^ 31 →
          vp.numberValue = some (t : ℚ)
            ∧ ((nidium_socket_prop_set cap w (some this) .Timeout vp timeoutOk).world.objs
                this).m_TCPTimeout = |t|
            ∧ (nidium_socket_prop_get
                (nidium_socket_prop_set cap w (some this) .Timeout vp timeoutOk).world
                (some this) .Timeout v0).vp = .int32 |t| := by
  have hstored : ((nidium_socket_prop_set cap w (some this) .Timeout vp timeoutOk).world.objs
      this).m_TCPTimeout = APE_ABS vp.toInt32 := by
    cases hs : (w.objs this).m_Socket with
    | none => simp [nidium_socket_prop_set, hnum, hs, World.setObj]
    | some h =>
      cases timeoutOk <;>
        simp [nidium_socket_prop_set, hnum, hs, World.setObj, World.call, World.report]
  have hget : (nidium_socket_prop_get
      (nidium_socket_prop_set cap w (some this) .Timeout vp timeoutOk).world
      (some this) .Timeout v0).vp = .int32 (APE_ABS vp.toInt32) := by
    simp only [nidium_socket_prop_get, hstored]
  refine ⟨?_, hstored, ?_, hget, ?_, ?_, ?_⟩
  · simp only [nidium_socket_prop_set, hnum, if_true]
    split
    · rfl
    · rfl
  · rfl
  · intro hdet
    have hs : (w.objs this).m_Socket = none := by
      unfold isAttached at hdet
      cases h : (w.objs this).m_Socket with
      | none => rfl
      | some x => rw [h] at hdet; cases hdet
    simp [nidium_socket_prop_set, hnum, hs, World.setObj]
  · intro h hs
    cases timeoutOk <;>
      simp [nidium_socket_prop_set, hnum, hs, World.setObj, World.call, World.report]
  · intro t hv h1 h2
    subst hv
    rw [hstored, hget, APE_ABS_int32 t h1 h2]
    exact ⟨numberValue_int32 t (by omega) h2, rfl, rfl⟩

/-- Three runs of C14: `timeout = -30` on the never connected session, and on the connected
client with the transport accepting and refusing the value. -/
theorem timeout_set_stores_witness :
    ((nidium_socket_prop_set 8192 freshWorld (some 0) .Timeout (.int32 (-30)) true).world.objs
        0).m_TCPTimeout = 30
      ∧ (nidium_socket_prop_get
          (nidium_socket_prop_set 8192 freshWorld (some 0) .Timeout (.int32 (-30)) true).world
          (some 0) .Timeout .undefined).vp = .int32 30
      ∧ (nidium_socket_prop_set 8192 connectedWorld (some 0) .Timeout (.int32 (-30))
          true).world.calls = connectedWorld.calls ++ [.socket_setTimeout (some 5) 30]
      ∧ ((nidium_socket_prop_set 8192 connectedWorld (some 0) .Timeout (.int32 (-30))
          false).world.objs 0).m_TCPTimeout = 30
      ∧ (nidium_socket_prop_set 8192 connectedWorld (some 0) .Timeout (.int32 (-30))
          false).world.diags
        = connectedWorld.diags ++ [.warning "Couldn't set TCP timeout on socket"]
      ∧ ((JSVal.int32 (-30)).numberValue = some ((-30 : Int) : ℚ)
        ∧ ((nidium_socket_prop_set 8192 connectedWorld (some 0) .Timeout (.int32 (-30))
            false).world.objs 0).m_TCPTimeout = |(-30 : Int)|
        ∧ (nidium_socket_prop_get
            (nidium_socket_prop_set 8192 connectedWorld (some 0) .Timeout (.int32 (-30))
              false).world (some 0) .Timeout .undefined).vp = .int32 |(-30 : Int)|) :=
  ⟨(timeout_set_stores 8192 freshWorld 0 (.int32 (-30)) true .undefined rfl).2.1,
    (timeout_set_stores 8192 freshWorld 0 (.int32 (-30)) true .undefined rfl).2.2.2.1,
    ((timeout_set_stores 8192 connectedWorld 0 (.int32 (-30)) true .undefined rfl).2.2.2.2.2.1
      5 rfl).1,
    (timeout_set_stores 8192 connectedWorld 0 (.int32 (-30)) false .undefined rfl).2.1,
    ((timeout_set_stores 8192 connectedWorld 0 (.int32 (-30)) false .undefined rfl).2.2.2.2.2.1
      5 rfl).2,
    (timeout_set_stores 8192 connectedWorld 0 (.int32 (-30)) false .undefined rfl).2.2.2.2.2.2
      (-30) rfl (by decide) (by decide)⟩

/-- C14 fails as stated. With `timeout = -2147483648`, the smallest int32, the setter stores
-2147483648 and the getter returns it: not the absolute value 2147483648, which no int32
holds. With `timeout = 2.5`, a double, the setter stores an int32, which is not 2.5. -/
theorem timeout_set_not_abs :
    ((JSVal.int32 (-2147483648)).isNumber = true
        ∧ (JSVal.int32 (-2147483648)).numberValue = some (-2147483648)
        ∧ (nidium_socket_prop_set 8192 freshWorld (some 0) .Timeout (.int32 (-2147483648))
            true).ok = true
        ∧ ((nidium_socket_prop_set 8192 freshWorld (some 0) .Timeout (.int32 (-2147483648))
            true).world.objs 0).m_TCPTimeout = -2147483648
        ∧ (nidium_socket_prop_get
            (nidium_socket_prop_set 8192 freshWorld (some 0) .Timeout (.int32 (-2147483648))
              true).world (some 0) .Timeout .undefined).vp = .int32 (-2147483648)
        ∧ ((nidium_socket_prop_set 8192 freshWorld (some 0) .Timeout (.int32 (-2147483648))
            true).world.objs 0).m_TCPTimeout ≠ |(-2147483648 : Int)|)
      ∧ ((JSVal.double 0x4004000000000000).isNumber = true
        ∧ (JSVal.double 0x4004000000000000).numberValue = some (5 / 2)
        ∧ ((((nidium_socket_prop_set 8192 freshWorld (some 0) .Timeout
            (.double 0x4004000000000000) true).world.objs 0).m_TCPTimeout : Int) : ℚ)
          ≠ |(5 / 2 : ℚ)|) := by
  refine ⟨⟨rfl, ?_, rfl, ?_, ?_, ?_⟩, rfl, ?_, ?_⟩
  · simp [JSVal.numberValue, wrap32]
  · decide
  · decide
  · decide
  · simp [JSVal.numberValue]; norm_num
  · have h : ((nidium_socket_prop_set 8192 freshWorld (some 0) .Timeout
        (.double 0x4004000000000000) true).world.objs 0).m_TCPTimeout = 0 := by decide
    have h5 : |(5 / 2 : ℚ)| = 5 / 2 := abs_of_pos (by norm_num)
    rw [h, h5]
    norm_num

theorem applyTimeout_calls (w : World) (this h : Addr) (timeoutOk : Bool) :
    (applyTimeout w this h timeoutOk).calls
      = w.calls ++ (if (w.objs this).m_TCPTimeout ≠ 0
          then [TransportCall.socket_setTimeout (some h) (w.objs this).m_TCPTimeout] else []) := by
  unfold applyTimeout
  by_cases h0 : (w.objs this).m_TCPTimeout ≠ 0
  · rw [if_pos h0, if_pos h0]
    cases timeoutOk <;> rfl
  · rw [if_neg h0, if_neg h0]
    simp

/-- The transport calls of a successful `listen` on a detached session, in order: the socket
is created, the timeout is handed to the new handle when it is not zero, the handle listens,
compression is switched on when asked for. -/
theorem listen_calls (w : World) (this : Addr) (args : List JSVal) (h : Addr)
    (timeoutOk : Bool) (listenRet : Int)
    (hdet : isAttached w this = false) (hret : listenRet ≠ -1) :
    (nidium_socket_listen w this args (some h) timeoutOk listenRet).ok = true
      ∧ (nidium_socket_listen w this args (some h) timeoutOk listenRet).world.calls
        = w.calls ++ [.socket_new (listenProtocol args).1]
          ++ (if (w.objs this).m_TCPTimeout ≠ 0
              then [.socket_setTimeout (some h) (w.objs this).m_TCPTimeout] else [])
          ++ [.socket_listen (some h) (w.objs this).m_Port (w.objs this).m_Host]
          ++ (if (listenProtocol args).2 then [.socket_enable_lz4 (some h)] else []) := by
  have e : (listenRet = -1) = False := by simp [hret]
  cases hl : (listenProtocol args).2 <;>
    simp [nidium_socket_listen, hdet, e, hl, World.setObj, World.setSock, World.call,
      applyTimeout_calls, applyTimeout_objs]

/-- The transport calls of a successful `connect` on a detached session, in order. -/
theorem connect_calls (w : World) (this : Addr) (args : List JSVal) (h : Addr)
    (timeoutOk : Bool) (connectRet : Int)
    (hdet : isAttached w this = false) (hret : connectRet ≠ -1) :
    (nidium_socket_connect w this args (some h) timeoutOk connectRet).ok = true
      ∧ (nidium_socket_connect w this args (some h) timeoutOk connectRet).world.calls
        = w.calls ++ [.socket_new (connectProtocol args).1]
          ++ (if (w.objs this).m_TCPTimeout ≠ 0
              then [.socket_setTimeout (some h) (w.objs this).m_TCPTimeout] else [])
          ++ (if (connectProtocol args).2 then [.socket_enable_lz4 (some h)] else [])
          ++ [.socket_connect (some h) (w.objs this).m_Port (w.objs this).m_Host
              (connectLocalPort args)] := by
  have e : (connectRet = -1) = False := by simp [hret]
  cases hl : (connectProtocol args).2 <;>
    simp [nidium_socket_connect, hdet, e, hl, World.setObj, World.setSock, World.call,
      applyTimeout_calls, applyTimeout_objs]

/-- What the timeout setter leaves on a detached session: the stored timeout, the session
still detached, host and port and the transport calls as before. -/
theorem timeout_set_detached (cap : Nat) (w : World) (this : Addr) (vp : JSVal)
    (ok0 : Bool) (hdet : isAttached w this = false) (hnum : vp.isNumber = true) :
    isAttached (nidium_socket_prop_set cap w (some this) .Timeout vp ok0).world this = false
      ∧ ((nidium_socket_prop_set cap w (some this) .Timeout vp ok0).world.objs this).m_TCPTimeout
        = APE_ABS vp.toInt32
      ∧ ((nidium_socket_prop_set cap w (some this) .Timeout vp ok0).world.objs this).m_Port
        = (w.objs this).m_Port
      ∧ ((nidium_socket_prop_set cap w (some this) .Timeout vp ok0).world.objs this).m_Host
        = (w.objs this).m_Host
      ∧ (nidium_socket_prop_set cap w (some this) .Timeout vp ok0).world.calls = w.calls := by
  have hs : (w.objs this).m_Socket = none := by
    unfold isAttached at hdet
    cases h : (w.objs this).m_Socket with
    | none => rfl
    | some x => rw [h] at hdet; cases hdet
  simp [nidium_socket_prop_set, hnum, hs, World.setObj, isAttached]

/-- The timeout the session holds after the setter, attached or not. -/
theorem timeout_set_value (cap : Nat) (w : World) (this : Addr) (vp : JSVal)
    (timeoutOk : Bool) (hnum : vp.isNumber = true) :
    ((nidium_socket_prop_set cap w (some this) .Timeout vp timeoutOk).world.objs
      this).m_TCPTimeout = APE_ABS vp.toInt32 := by
  cases hs : (w.objs this).m_Socket with
  | none => simp [nidium_socket_prop_set, hnum, hs, World.setObj]
  | some h =>
    cases timeoutOk <;>
      simp [nidium_socket_prop_set, hnum, hs, World.setObj, World.call, World.report]

/-- C15, as amended: when the timeout is set to a numeric value, the session holds the int32
the code computes from `vp.toInt32()`, which is the absolute value of `t` for every int32
number `t` other than -2147483648. When the session was detached, a subsequent successful
`listen` or `connect` calls the transport's `setTimeout` with exactly the value held on the
newly created handle, after the socket is created and before the transport's listen or
connect call, when that value is not zero, and makes no `setTimeout` call when it is zero.
When the session was attached to `h`, the setter calls `setTimeout` on `h` with the value
held at once. -/
theorem timeout_applied_at_attach (cap : Nat) (w : World) (this : Addr) (vp : JSVal)
    (ok0 timeoutOk : Bool) (args : List JSVal) (h : Addr) (ret : Int)
    (hnum : vp.isNumber = true) (hret : ret ≠ -1) :
    (isAttached w this = false →
        ((nidium_socket_listen (nidium_socket_prop_set cap w (some this) .Timeout vp ok0).world
            this args (some h) timeoutOk ret).ok = true
          ∧ (nidium_socket_listen (nidium_socket_prop_set cap w (some this) .Timeout vp ok0).world
              this args (some h) timeoutOk ret).world.calls
            = w.calls ++ [.socket_new (listenProtocol args).1]
              ++ (if APE_ABS vp.toInt32 ≠ 0
                  then [.socket_setTimeout (some h) (APE_ABS vp.toInt32)] else [])
              ++ [.socket_listen (some h) (w.objs this).m_Port (w.objs this).m_Host]
              ++ (if (listenProtocol args).2 then [.socket_enable_lz4 (some h)] else []))
        ∧ ((nidium_socket_connect (nidium_socket_prop_set cap w (some this) .Timeout vp ok0).world
            this args (some h) timeoutOk ret).ok = true
          ∧ (nidium_socket_connect
              (nidium_socket_prop_set cap w (some this) .Timeout vp ok0).world
              this args (some h) timeoutOk ret).world.calls
            = w.calls ++ [.socket_new (connectProtocol args).1]
              ++ (if APE_ABS vp.toInt32 ≠ 0
                  then [.socket_setTimeout (some h) (APE_ABS vp.toInt32)] else [])
              ++ (if (connectProtocol args).2 then [.socket_enable_lz4 (some h)] else [])
              ++ [.socket_connect (some h) (w.objs this).m_Port (w.objs this).m_Host
                  (connectLocalPort args)]))
      ∧ ((w.objs this).m_Socket = some h →
          (nidium_socket_prop_set cap w (some this) .Timeout vp ok0).world.calls
            = w.calls ++ [.socket_setTimeout (some h) (APE_ABS vp.toInt32)])
      ∧ ((nidium_socket_prop_set cap w (some this) .Timeout vp ok0).world.objs
          this).m_TCPTimeout = APE_ABS vp.toInt32
      ∧ ∀ t : Int, vp = .int32 t → -2 ^ 31 < t → t < 2 ^ 31 →
          vp.numberValue = some (t : ℚ) ∧ APE_ABS vp.toInt32 = |t| := by
  refine ⟨?_, ?_, timeout_set_value cap w this vp ok0 hnum, ?_⟩
  · intro hdet
    obtain ⟨h1, h2, h3, h4, h5⟩ := timeout_set_detached cap w this vp ok0 hdet hnum
    have hl := listen_calls _ this args h timeoutOk ret h1 hret
    have hc := connect_calls _ this args h timeoutOk ret h1 hret
    rw [h2, h3, h4, h5] at hl hc
    exact ⟨hl, hc⟩
  · intro hs
    cases ok0 <;>
      simp [nidium_socket_prop_set, hnum, hs, World.setObj, World.call, World.report]
  · intro t hv h1 h2
    subst hv
    exact ⟨numberValue_int32 t (by omega) h2, APE_ABS_int32 t h1 h2⟩

/-- Runs of C15: `timeout = 30` on the never connected session, then `listen()` and
`connect()`; and `timeout = 30` on the connected client. -/
theorem timeout_applied_at_attach_witness :
    (nidium_socket_listen
        (nidium_socket_prop_set 8192 freshWorld (some 0) .Timeout (.int32 30) true).world
        0 [] (some 5) true 0).world.calls
        = [.socket_new .TCP, .socket_setTimeout (some 5) 30,
            .socket_listen (some 5) 8080 [49, 50, 55, 46, 48, 46, 48, 46, 49]]
      ∧ (nidium_socket_connect
          (nidium_socket_prop_set 8192 freshWorld (some 0) .Timeout (.int32 30) true).world
          0 [] (some 5) true 0).world.calls
        = [.socket_new .TCP, .socket_setTimeout (some 5) 30,
            .socket_connect (some 5) 8080 [49, 50, 55, 46, 48, 46, 48, 46, 49] 0]
      ∧ (nidium_socket_prop_set 8192 connectedWorld (some 0) .Timeout (.int32 30) true).world.calls
        = connectedWorld.calls ++ [.socket_setTimeout (some 5) 30]
      ∧ ((JSVal.int32 30).numberValue = some ((30 : Int) : ℚ)
        ∧ APE_ABS (JSVal.int32 30).toInt32 = |(30 : Int)|) :=
  ⟨((timeout_applied_at_attach 8192 freshWorld 0 (.int32 30) true true [] 5 0 rfl
      (by decide)).1 rfl).1.2,
    ((timeout_applied_at_attach 8192 freshWorld 0 (.int32 30) true true [] 5 0 rfl
      (by decide)).1 rfl).2.2,
    (timeout_applied_at_attach 8192 connectedWorld 0 (.int32 30) true true [] 5 0 rfl
      (by decide)).2.1 rfl,
    (timeout_applied_at_attach 8192 connectedWorld 0 (.int32 30) true true [] 5 0 rfl
      (by decide)).2.2.2 30 rfl (by decide) (by decide)⟩

/-- C15 fails as stated: with the timeout set to 0 on the never connected session, a
successful `listen()` makes no `setTimeout` call on the new handle 5, and so does a
successful `connect()`; with the timeout set to -5, `listen()` calls `setTimeout` with 5,
not with -5. -/
theorem timeout_zero_not_applied :
    isAttached freshWorld 0 = false
      ∧ (nidium_socket_listen
          (nidium_socket_prop_set 8192 freshWorld (some 0) .Timeout (.int32 0) true).world
          0 [] (some 5) true 0).ok = true
      ∧ (nidium_socket_listen
          (nidium_socket_prop_set 8192 freshWorld (some 0) .Timeout (.int32 0) true).world
          0 [] (some 5) true 0).world.calls
        = [.socket_new .TCP, .socket_listen (some 5) 8080 [49, 50, 55, 46, 48, 46, 48, 46, 49]]
      ∧ (nidium_socket_connect
          (nidium_socket_prop_set 8192 freshWorld (some 0) .Timeout (.int32 0) true).world
          0 [] (some 5) true 0).world.calls
        = [.socket_new .TCP,
            .socket_connect (some 5) 8080 [49, 50, 55, 46, 48, 46, 48, 46, 49] 0]
      ∧ (nidium_socket_listen
          (nidium_socket_prop_set 8192 freshWorld (some 0) .Timeout (.int32 (-5)) true).world
          0 [] (some 5) true 0).world.calls
        = [.socket_new .TCP, .socket_setTimeout (some 5) 5,
            .socket_listen (some 5) 8080 [49, 50, 55, 46, 48, 46, 48, 46, 49]] := by
  refine ⟨rfl, rfl, ?_, ?_, ?_⟩ <;> decide

/-! ## Switching line-delimited mode on and off (C16) -/

/-- Outside line-delimited mode a chunk is delivered whole: with the binary flag set, or with
neither flag set, `onRead` dispatches one event carrying the chunk and changes nothing
else. -/
theorem onRead_whole (cap : Nat) (w : World) (this : Addr) (data : List Byte)
    (hcall : isJSCallable w this = true)
    (hmode : (getFlags w this).binary = true
      ∨ ((getFlags w this).binary = false ∧ (getFlags w this).readline = false)) :
    ∃ p : Payload, p.bytes = data ∧ onRead cap w this data = .ok (w.dispatch (.onread this p)) := by
  rcases hmode with hb | ⟨hb, hr⟩
  · exact ⟨.arrayBuffer data, rfl, by simp [onRead, hcall, hb]⟩
  · exact ⟨.string data, rfl, by simp [onRead, hcall, hb, hr]⟩

/-- C16: on a `Socket` session (one with no parent server, the only kind that has the
property), enabling `readline` (with `true` or with an int32 delimiter) when no line buffer is
allocated allocates one of `cap` bytes with occupancy zero and sets the flag; setting
`readline` to `false` returns `true` and changes nothing but the line-delimited flag, which it
clears: the line buffer keeps its block and occupancy, and the binary flag, the Server flag,
the delimiter and every other field, session and handle are as before; and afterwards, on a
callable session, `onRead` dispatches each chunk whole as one frame, the line buffer
untouched. -/
theorem readline_switch (cap : Nat) (w : World) (this : Addr) (timeoutOk : Bool) :
    (∀ vp : JSVal, ((vp.isBoolean && vp.toBoolean) || vp.isInt32) = true →
        (w.objs this).m_LineBuffer.data = none →
        ((nidium_socket_prop_set cap w (some this) .Readline vp timeoutOk).world.objs
            this).m_LineBuffer = { data := some (mallocLineBuffer cap), pos := 0 }
          ∧ ((nidium_socket_prop_set cap w (some this) .Readline vp timeoutOk).world.objs
              this).m_Flags.readline = true)
      ∧ (nidium_socket_prop_set cap w (some this) .Readline (.boolean false) timeoutOk).ok = true
      ∧ (nidium_socket_prop_set cap w (some this) .Readline (.boolean false) timeoutOk).world
        = w.setObj this
            { w.objs this with m_Flags := { (w.objs this).m_Flags with readline := false } }
      ∧ ((nidium_socket_prop_set cap w (some this) .Readline (.boolean false)
            timeoutOk).world.objs this).m_LineBuffer = (w.objs this).m_LineBuffer
      ∧ ((nidium_socket_prop_set cap w (some this) .Readline (.boolean false)
            timeoutOk).world.objs this).m_Flags.readline = false
      ∧ ((nidium_socket_prop_set cap w (some this) .Readline (.boolean false)
            timeoutOk).world.objs this).m_Flags.binary = (w.objs this).m_Flags.binary
      ∧ ((nidium_socket_prop_set cap w (some this) .Readline (.boolean false)
            timeoutOk).world.objs this).m_Flags.server = (w.objs this).m_Flags.server
      ∧ ((nidium_socket_prop_set cap w (some this) .Readline (.boolean false)
            timeoutOk).world.objs this).m_FrameDelimiter = (w.objs this).m_FrameDelimiter
      ∧ ((w.objs this).m_ParentServer = none → isJSCallable w this = true →
          ∀ data : List Byte, ∃ p : Payload, p.bytes = data
            ∧ onRead cap
                (nidium_socket_prop_set cap w (some this) .Readline (.boolean false)
                  timeoutOk).world this data
              = .ok ((nidium_socket_prop_set cap w (some this) .Readline (.boolean false)
                  timeoutOk).world.dispatch (.onread this p))) := by
  have hoff : (nidium_socket_prop_set cap w (some this) .Readline (.boolean false)
      timeoutOk).world
      = w.setObj this
          { w.objs this with m_Flags := { (w.objs this).m_Flags with readline := false } } := by
    simp [nidium_socket_prop_set, JSVal.isBoolean, JSVal.toBoolean, JSVal.isInt32]
  refine ⟨?_, ?_, hoff, ?_, ?_, ?_, ?_, ?_, ?_⟩
  · intro vp hact hnone
    simp [nidium_socket_prop_set, hact, hnone, World.setObj]
  · simp [nidium_socket_prop_set, JSVal.isBoolean, JSVal.toBoolean, JSVal.isInt32]
  · rw [hoff]; simp [World.setObj]
  · rw [hoff]; simp [World.setObj]
  · rw [hoff]; simp [World.setObj]
  · rw [hoff]; simp [World.setObj]
  · rw [hoff]; simp [World.setObj]
  · intro hpar hcall data
    rw [hoff]
    have hcall1 : isJSCallable (w.setObj this
        { w.objs this with m_Flags := { (w.objs this).m_Flags with readline := false } })
        this = true := by
      unfold isJSCallable getJSObject at hcall ⊢
      simp only [World.setObj, Function.update_same, hpar] at hcall ⊢
      exact hcall
    have hrl : (getFlags (w.setObj this
        { w.objs this with m_Flags := { (w.objs this).m_Flags with readline := false } })
        this).readline = false := by
      unfold getFlags
      simp only [World.setObj, Function.update_same, hpar]
    cases hb : (getFlags (w.setObj this
        { w.objs this with m_Flags := { (w.objs this).m_Flags with readline := false } })
        this).binary with
    | true => exact onRead_whole cap _ this data hcall1 (Or.inl hb)
    | false => exact onRead_whole cap _ this data hcall1 (Or.inr ⟨hb, hrl⟩)

/-- A run of C16: `readline = true` on the freshly constructed session, then, with "ab"
buffered, `readline = false`, then the chunk "c\nd". -/
theorem readline_switch_witness :
    (((nidium_socket_prop_set 8 freshWorld (some 0) .Readline (.boolean true) true).world.objs
          0).m_LineBuffer = { data := some (mallocLineBuffer 8), pos := 0 }
        ∧ ((nidium_socket_prop_set 8 freshWorld (some 0) .Readline (.boolean true)
            true).world.objs 0).m_Flags.readline = true)
      ∧ ∃ p : Payload, p.bytes = [99, 10, 100]
          ∧ onRead 8
              (nidium_socket_prop_set 8
                ((lineWorld 8).setLineBuffer 0
                  { data := some [97, 98, 0, 0, 0, 0, 0, 0], pos := 2 })
                (some 0) .Readline (.boolean false) true).world 0 [99, 10, 100]
            = .ok ((nidium_socket_prop_set 8
                ((lineWorld 8).setLineBuffer 0
                  { data := some [97, 98, 0, 0, 0, 0, 0, 0], pos := 2 })
                (some 0) .Readline (.boolean false) true).world.dispatch (.onread 0 p)) :=
  ⟨(readline_switch 8 freshWorld 0 true).1 (.boolean true) rfl rfl,
    (readline_switch 8 ((lineWorld 8).setLineBuffer 0
      { data := some [97, 98, 0, 0, 0, 0, 0, 0], pos := 2 }) 0 true).2.2.2.2.2.2.2.2
      rfl rfl [99, 10, 100]⟩

/-! ## Refinement of the one-shot split (C17) -/

/-- The pieces of the library's split are the complete lines followed by the remainder. -/
theorem splitOn_eq_lines_pending (d : Byte) (s : List Byte) :
    s.splitOn d = splitLines d [] s ++ [pending d [] s] := by
  rw [splitLines_nil_eq_splitOn, pending_nil_eq_getLast]
  exact (List.dropLast_append_getLast (splitOn_ne_nil d s)).symm

/-- When no delimiter-free segment of a stream is longer than `cap`, what is pending after
any initial part of the stream is at most `cap` bytes long. -/
theorem pending_le_of_segments (cap : Nat) (d : Byte) (xs ys : List Byte)
    (hseg : ∀ seg ∈ (xs ++ ys).splitOn d, seg.length ≤ cap) :
    (pending d [] xs).length ≤ cap := by
  rw [splitOn_eq_lines_pending, splitLines_append, pending_append] at hseg
  cases hm : memchr d ys with
  | none =>
    have hn := memchr_eq_none hm
    have h1 := hseg (pending d (pending d [] xs) ys) (by simp)
    rw [pending_of_not_mem _ hn, List.length_append] at h1
    omega
  | some n =>
    obtain ⟨_, hnot, hsplit⟩ := memchr_eq_some hm
    have e : splitLines d (pending d [] xs) ys
        = (pending d [] xs ++ ys.take n) :: splitLines d [] (ys.drop (n + 1)) := by
      conv_lhs => rw [hsplit]
      exact splitLines_delim _ _ _ hnot
    have h1 := hseg (pending d [] xs ++ ys.take n) (by rw [e]; simp)
    rw [List.length_append] at h1
    omega

/-- The same for a stream given in chunks: what is pending after each chunk fits. -/
theorem tails_fit_of_segments (cap : Nat) (d : Byte) (chunks : List (List Byte))
    (hseg : ∀ seg ∈ chunks.flatten.splitOn d, seg.length ≤ cap) (k : Nat) :
    (pending d [] (chunks.take k).flatten).length ≤ cap := by
  apply pending_le_of_segments cap d _ (chunks.drop k).flatten
  rw [← List.flatten_append, List.take_append_drop]
  exact hseg

/-- C17: on a callable session in line-delimited, non-binary mode that starts with an
allocated, empty line buffer of `cap = SOCKET_LINEBUFFER_MAX` bytes, for every stream none of
whose delimiter-free segments (lines and final remainder) is longer than `cap`, and every
split of it into chunks, feeding the chunks to `onRead` returns and agrees with the one-shot
split of the concatenated stream: the frames dispatched are the pieces of the stream split at
the delimiter, in order, without the last piece; at the end the line buffer holds exactly
that last piece, and nothing else in the world has changed. And at every chunk `c` of the
run, the buffer holds the remainder of the stream received before it; the frames `c`
produces are its own complete pieces, the buffered bytes in front of the first one only;
afterwards the buffer holds the last piece of `c` alone when `c` contains a delimiter (the
buffered prefix is gone), and the buffered bytes followed by `c` when it does not. -/
theorem feed_refines_split (cap : Nat) (w : World) (this : Addr) (chunks : List (List Byte))
    (mem : List Byte) (d : Byte)
    (hcall : isJSCallable w this = true)
    (hbin : (getFlags w this).binary = false)
    (hrl : (getFlags w this).readline = true)
    (hd : getFrameDelimiter w this = d)
    (hlb : (w.objs this).m_LineBuffer = { data := some mem, pos := 0 })
    (hcap : mem.length = cap)
    (hseg : ∀ seg ∈ chunks.flatten.splitOn d, seg.length ≤ cap) :
    (∃ mem1 pos1, mem1.length = cap ∧ pos1 ≤ cap
        ∧ mem1.take pos1 = (chunks.flatten.splitOn d).getLast (splitOn_ne_nil d _)
        ∧ feed cap this w chunks
          = .ok (w.put this { data := some mem1, pos := pos1 }
              (((chunks.flatten.splitOn d).dropLast).map (textFrame this))))
      ∧ ∀ (pre : List (List Byte)) (c : List Byte) (post : List (List Byte)),
          chunks = pre ++ c :: post →
          ∃ w0 w1 mem0 pos0 mem1 pos1,
            feed cap this w pre = .ok w0
              ∧ (w0.objs this).m_LineBuffer = { data := some mem0, pos := pos0 }
              ∧ mem0.take pos0 = (pre.flatten.splitOn d).getLast (splitOn_ne_nil d _)
              ∧ onRead cap w0 this c = .ok w1
              ∧ w1.events
                = w0.events
                  ++ (((c.splitOn d).dropLast).modifyHead (fun f => mem0.take pos0 ++ f)).map
                      (textFrame this)
              ∧ (w1.objs this).m_LineBuffer = { data := some mem1, pos := pos1 }
              ∧ (d ∈ c → mem1.take pos1 = (c.splitOn d).getLast (splitOn_ne_nil d _))
              ∧ (d ∉ c → mem1.take pos1 = mem0.take pos0 ++ c) := by
  subst hd
  have htails : ∀ (cs : List (List Byte)) (rest : List (List Byte)), chunks = cs ++ rest →
      ∀ k, k ≤ cs.length →
        (pending (getFrameDelimiter w this) (mem.take 0) (cs.take k).flatten).length ≤ cap := by
    intro cs rest hcs k hk
    have := tails_fit_of_segments cap _ chunks hseg k
    rw [hcs, List.take_append_of_le_length hk] at this
    simpa using this
  constructor
  · obtain ⟨mem1, pos1, hcap1, hpos1, htake1, hrun⟩ :=
      feed_line_fit cap this chunks w mem 0 hcall hbin hrl hlb hcap (Nat.zero_le _)
        (htails chunks [] (by simp))
    refine ⟨mem1, pos1, hcap1, hpos1, ?_, ?_⟩
    · rw [htake1, List.take_zero, pending_nil_eq_getLast]
    · rw [hrun, List.take_zero, splitLines_nil_eq_splitOn]
  · intro pre c post hchunks
    obtain ⟨mem0, pos0, hcap0, hpos0, htake0, hrun0⟩ :=
      feed_line_fit cap this pre w mem 0 hcall hbin hrl hlb hcap (Nat.zero_le _)
        (htails pre (c :: post) hchunks)
    rw [List.take_zero] at htake0 hrun0
    have hfit : (pending (getFrameDelimiter w this) (mem0.take pos0) c).length ≤ cap := by
      have := htails (pre ++ [c]) post (by simp [hchunks]) (pre.length + 1) (by simp)
      have e : (pre ++ [c]).take (pre.length + 1) = pre ++ [c] :=
        List.take_of_length_le (by simp)
      rw [List.take_zero, e, List.flatten_append] at this
      rw [htake0, ← pending_append]
      simpa using this
    obtain ⟨mem1, pos1, _, _, htake1, hrun1⟩ :=
      onRead_line_fit cap
        (w.put this { data := some mem0, pos := pos0 }
          ((splitLines (getFrameDelimiter w this) [] pre.flatten).map (textFrame this)))
        this c mem0 pos0 (by rw [isJSCallable_put]; exact hcall)
        (by rw [getFlags_put]; exact hbin) (by rw [getFlags_put]; exact hrl)
        (World.put_lineBuffer _ _ _ _) hcap0 hpos0 (by rw [getFrameDelimiter_put]; exact hfit)
    rw [getFrameDelimiter_put] at htake1 hrun1
    refine ⟨_, _, mem0, pos0, mem1, pos1, hrun0, World.put_lineBuffer _ _ _ _, ?_, hrun1, ?_,
      World.put_lineBuffer _ _ _ _, ?_, ?_⟩
    · rw [htake0, pending_nil_eq_getLast]
    · rw [World.put_events, splitLines_eq_splitOn (getFrameDelimiter w this) c]
    · intro hmem
      rw [htake1, pending_of_mem _ hmem, pending_nil_eq_getLast]
    · intro hmem
      rw [htake1, pending_of_not_mem _ hmem]

/-- A run of C17 with a line buffer of 4 bytes: the stream "abc\nd\nef" arriving as "ab",
"c\nd\ne", "f"; at the second chunk the buffered "ab" goes in front of "c". -/
theorem feed_refines_split_witness :
    (∃ mem1 pos1, mem1.length = 4 ∧ pos1 ≤ 4
        ∧ mem1.take pos1
          = ([[97, 98], [99, 10, 100, 10, 101], [102]].flatten.splitOn 10).getLast
              (splitOn_ne_nil 10 _)
        ∧ feed 4 0 (lineWorld 4) [[97, 98], [99, 10, 100, 10, 101], [102]]
          = .ok ((lineWorld 4).put 0 { data := some mem1, pos := pos1 }
              ((([[97, 98], [99, 10, 100, 10, 101], [102]].flatten.splitOn 10).dropLast).map
                (textFrame 0))))
      ∧ ∃ w0 w1 mem0 pos0 mem1 pos1,
          feed 4 0 (lineWorld 4) [[97, 98]] = .ok w0
            ∧ (w0.objs 0).m_LineBuffer = { data := some mem0, pos := pos0 }
            ∧ mem0.take pos0 = ([[97, 98]].flatten.splitOn 10).getLast (splitOn_ne_nil 10 _)
            ∧ onRead 4 w0 0 [99, 10, 100, 10, 101] = .ok w1
            ∧ w1.events
              = w0.events
                ++ ((([99, 10, 100, 10, 101].splitOn 10).dropLast).modifyHead
                    (fun f => mem0.take pos0 ++ f)).map (textFrame 0)
            ∧ (w1.objs 0).m_LineBuffer = { data := some mem1, pos := pos1 }
            ∧ (10 ∈ [99, 10, 100, 10, 101]
                → mem1.take pos1
                  = ([99, 10, 100, 10, 101].splitOn 10).getLast (splitOn_ne_nil 10 _))
            ∧ (10 ∉ [99, 10, 100, 10, 101] → mem1.take pos1 = mem0.take pos0 ++ [99, 10, 100, 10, 101]) :=
  ⟨(feed_refines_split 4 (lineWorld 4) 0 [[97, 98], [99, 10, 100, 10, 101], [102]]
      (mallocLineBuffer 4) 10 rfl rfl rfl rfl rfl rfl (by decide)).1,
    (feed_refines_split 4 (lineWorld 4) 0 [[97, 98], [99, 10, 100, 10, 101], [102]]
      (mallocLineBuffer 4) 10 rfl rfl rfl rfl rfl rfl (by decide)).2
      [[97, 98]] [99, 10, 100, 10, 101] [[102]] rfl⟩

/-! ## The line buffer of an accepted child (C18) -/

/-- C18 at the failing input: a server listens, accepts a peer while line-delimited mode is
off (the child at address 1 gets no line buffer), then enables `readline`. The child's
effective line-delimited flag is now set while its line buffer is not allocated, and the
chunk "a" delivered to the child makes `onRead` copy through the null buffer. -/
theorem child_accepted_before_readline :
    (getFlags (acceptedWorld 8192) 1).readline = false
      ∧ ((acceptedWorld 8192).objs 1).m_LineBuffer.data = none
      ∧ (getFlags (lateReadlineWorld 8192) 1).readline = true
      ∧ (getFlags (lateReadlineWorld 8192) 1).binary = false
      ∧ ((lateReadlineWorld 8192).objs 1).m_LineBuffer.data = none
      ∧ isJSCallable (lateReadlineWorld 8192) 1 = true
      ∧ onRead 8192 (lateReadlineWorld 8192) 1 [97] = .error .nullPointer
      ∧ nidium_socket_wrapper_client_read 8192 (lateReadlineWorld 8192) 6 [97]
        = .error .nullPointer := by
  refine ⟨rfl, rfl, rfl, rfl, rfl, rfl, rfl, rfl⟩

/-! ## Termination of the scanning loop (C19) -/

/-- The recording loop is the loop: forgetting the record gives `onRead.scan`. -/
theorem scanLog_fst (this : Addr) (fuel : Nat) :
    ∀ (w : World) (pBuf : List Byte) (tlen : Nat),
      (onRead.scanLog this fuel w pBuf tlen).map Prod.fst = onRead.scan this fuel w pBuf tlen := by
  induction fuel with
  | zero => intro w pBuf tlen; rfl
  | succ fuel ih =>
    intro w pBuf tlen
    unfold onRead.scanLog onRead.scan
    by_cases h0 : tlen > 0
    · rw [if_pos h0, if_pos h0]
      cases hm : memchr (getFrameDelimiter w this) (pBuf.take tlen) with
      | none =>
        simp only
        by_cases h1 : tlen ≤ pBuf.length
        · rw [if_pos h1, if_pos h1]; rfl
        · rw [if_neg h1, if_neg h1]; rfl
      | some n =>
        simp only
        by_cases h1 : tlen - n > 0
        · rw [if_pos h1, if_pos h1]
          cases hr : readFrame w this (pBuf.take n) with
          | error e => rfl
          | ok w1 =>
            simp only
            rw [← ih w1 (pBuf.drop (n + 1)) (tlen - n - 1)]
            cases onRead.scanLog this fuel w1 (pBuf.drop (n + 1)) (tlen - n - 1) with
            | error e => rfl
            | ok r => rfl
        · rw [if_neg h1, if_neg h1]
          rw [← ih w pBuf SIZE_MAX]
          cases onRead.scanLog this fuel w pBuf SIZE_MAX with
          | error e => rfl
          | ok r => rfl
    · rw [if_neg h0, if_neg h0]; rfl

theorem length_splitLines (d : Byte) (s : List Byte) :
    ∀ cur, (splitLines d cur s).length = s.count d := by
  induction s with
  | nil => intro cur; rfl
  | cons b bs ih =>
    intro cur
    by_cases hb : b = d
    · subst hb
      simp [splitLines, ih]
    · have hne : d ≠ b := fun e => hb e.symm
      simp [splitLines, hb, ih, List.count_cons_of_ne hne]

/-- The recording loop, with enough fuel: it returns what `scan_spec` says, after one turn
per delimiter of the chunk; the guard holds at every turn and `tlen` goes down. -/
theorem scanLog_spec (this : Addr) (fuel : Nat) :
    ∀ (w : World) (pBuf mem : List Byte) (pos : Nat),
      (getFlags w this).readline = true →
      (w.objs this).m_LineBuffer = { data := some mem, pos := pos } →
      pos ≤ mem.length →
      pBuf.length < fuel →
      ∃ log : List ScanTurn,
        onRead.scanLog this fuel w pBuf pBuf.length
          = .ok ((w.put this
              { data := some mem, pos := if getFrameDelimiter w this ∈ pBuf then 0 else pos }
              ((splitLines (getFrameDelimiter w this) (mem.take pos) pBuf).map (textFrame this)),
            pending (getFrameDelimiter w this) [] pBuf,
            (pending (getFrameDelimiter w this) [] pBuf).length), log)
        ∧ log.length = pBuf.count (getFrameDelimiter w this)
        ∧ ∀ t ∈ log, t.guard = true ∧ t.tlenAfter < t.tlenBefore
            ∧ t.tlenAfter + t.pLen + 1 = t.tlenBefore ∧ t.tlenBefore ≤ pBuf.length := by
  induction fuel with
  | zero => intro w pBuf mem pos _ _ _ hf; omega
  | succ fuel ih =>
    intro w pBuf mem pos hrl hlb hpos hf
    unfold onRead.scanLog
    by_cases hlen : pBuf.length > 0
    · simp only [hlen, if_true, List.take_length]
      cases hm : memchr (getFrameDelimiter w this) pBuf with
      | none =>
        have hn := memchr_eq_none hm
        refine ⟨[], ?_, ?_, ?_⟩
        · simp only [le_refl, if_true, hn, if_false, splitLines_of_not_mem _ hn,
            pending_of_not_mem _ hn, List.map_nil, List.nil_append]
          rw [World.put_self w this _ hlb]
        · rw [List.count_eq_zero_of_not_mem hn]; rfl
        · intro t ht; cases ht
      | some n =>
        obtain ⟨hlt, hnot, hsplit⟩ := memchr_eq_some hm
        have hmem : getFrameDelimiter w this ∈ pBuf := by
          rw [hsplit]; simp
        have h1 : pBuf.length - n > 0 := by omega
        have hlen2 : pBuf.length - n - 1 = (pBuf.drop (n + 1)).length := by
          simp; omega
        obtain ⟨log, hrun, hcount, hturns⟩ :=
          ih (w.put this { data := some mem, pos := 0 }
              [textFrame this (mem.take pos ++ pBuf.take n)]) (pBuf.drop (n + 1)) mem 0
            (by rw [getFlags_put]; exact hrl) (World.put_lineBuffer _ _ _ _)
            (Nat.zero_le _) (by simp; omega)
        rw [getFrameDelimiter_put] at hrun hcount
        have e1 : splitLines (getFrameDelimiter w this) (mem.take pos) pBuf
            = (mem.take pos ++ pBuf.take n)
              :: splitLines (getFrameDelimiter w this) [] (pBuf.drop (n + 1)) := by
          conv_lhs => rw [hsplit]
          exact splitLines_delim _ _ _ hnot
        have e2 : pending (getFrameDelimiter w this) [] pBuf
            = pending (getFrameDelimiter w this) [] (pBuf.drop (n + 1)) := by
          conv_lhs => rw [hsplit]
          exact pending_delim _ _ _ hnot
        have e3 : pBuf.count (getFrameDelimiter w this)
            = (pBuf.drop (n + 1)).count (getFrameDelimiter w this) + 1 := by
          conv_lhs => rw [hsplit]
          rw [List.count_append, List.count_eq_zero_of_not_mem hnot, List.count_cons_self]
          omega
        refine ⟨{ tlenBefore := pBuf.length, pLen := n, guard := true,
                  tlenAfter := pBuf.length - n - 1 } :: log, ?_, ?_, ?_⟩
        · simp only [h1, if_true, readFrame_spec w this _ mem pos hrl hlb hpos]
          rw [hlen2, hrun]
          simp only [World.put_put, ite_self, List.take_zero, hmem, if_true, e1, e2,
            List.map_cons, List.singleton_append, hlen2]
        · rw [List.length_cons, hcount, e3]
        · intro t ht
          rcases List.mem_cons.mp ht with rfl | ht
          · exact ⟨rfl, by simp only; omega, by simp only; omega, le_refl _⟩
          · obtain ⟨g1, g2, g3, g4⟩ := hturns t ht
            refine ⟨g1, g2, g3, ?_⟩
            have : (pBuf.drop (n + 1)).length ≤ pBuf.length := by simp
            omega
    · have hnil : pBuf = [] := by
        cases pBuf with
        | nil => rfl
        | cons b bs => simp at hlen
      subst hnil
      refine ⟨[], ?_, rfl, ?_⟩
      · simp only [List.length_nil, gt_iff_lt, lt_self_iff_false, if_false, List.not_mem_nil,
          splitLines, pending, List.map_nil]
        rw [World.put_self w this _ hlb]
      · intro t ht; cases ht

/-- C19: in line-delimited mode with the line buffer allocated, for every chunk and every
delimiter byte, the scanning loop of `onRead` returns (with the fuel `onRead` gives it, or
more) after exactly as many turns as the chunk has delimiter bytes, having dispatched one
frame per turn; at every turn the guard `tlen-- > 0` holds and `tlen` ends the turn strictly
below its value at the loop test (by the offset of the delimiter plus one, so it never wraps
around zero); and at loop exit `pBuf` is at the bytes that follow the last delimiter and
`tlen` is their number. -/
theorem scan_terminates (w : World) (this : Addr) (data mem : List Byte) (pos : Nat)
    (d : Byte) (fuel : Nat)
    (hrl : (getFlags w this).readline = true)
    (hd : getFrameDelimiter w this = d)
    (hlb : (w.objs this).m_LineBuffer = { data := some mem, pos := pos })
    (hpos : pos ≤ mem.length)
    (hfuel : data.length < fuel) :
    ∃ (w1 : World) (log : List ScanTurn) (es : List Event),
      onRead.scanLog this fuel w data data.length
          = .ok ((w1, (data.splitOn d).getLast (splitOn_ne_nil d data),
              ((data.splitOn d).getLast (splitOn_ne_nil d data)).length), log)
        ∧ onRead.scan this fuel w data data.length
          = .ok (w1, (data.splitOn d).getLast (splitOn_ne_nil d data),
              ((data.splitOn d).getLast (splitOn_ne_nil d data)).length)
        ∧ log.length = data.count d
        ∧ w1.events = w.events ++ es
        ∧ es.length = data.count d
        ∧ frames es = ((data.splitOn d).dropLast).modifyHead (fun f => mem.take pos ++ f)
        ∧ ∀ t ∈ log, t.guard = true ∧ t.tlenAfter < t.tlenBefore
            ∧ t.tlenAfter + t.pLen + 1 = t.tlenBefore ∧ t.tlenBefore ≤ data.length := by
  subst hd
  obtain ⟨log, hrun, hcount, hturns⟩ := scanLog_spec this fuel w data mem pos hrl hlb hpos hfuel
  have hscan := scanLog_fst this fuel w data data.length
  rw [hrun] at hscan
  have hframes : ∀ l : List (List Byte), frames (l.map (textFrame this)) = l := by
    intro l
    induction l with
    | nil => rfl
    | cons a t ih => simp [frames, textFrame, Payload.bytes, ih]
  refine ⟨w.put this
      { data := some mem, pos := if getFrameDelimiter w this ∈ data then 0 else pos }
      ((splitLines (getFrameDelimiter w this) (mem.take pos) data).map (textFrame this)),
    log, (splitLines (getFrameDelimiter w this) (mem.take pos) data).map (textFrame this),
    ?_, ?_, hcount, World.put_events _ _ _ _, ?_, ?_, hturns⟩
  · rw [hrun, pending_nil_eq_getLast]
  · rw [← hscan, pending_nil_eq_getLast]; rfl
  · rw [List.length_map, length_splitLines]
  · rw [hframes, splitLines_eq_splitOn]

/-- A run of C19: the chunk "a\n\nbc" (two delimiters) on the session with a line buffer of
4 bytes, with the fuel `onRead` gives the loop. -/
theorem scan_terminates_witness :
    ∃ (w1 : World) (log : List ScanTurn) (es : List Event),
      onRead.scanLog 0 6 (lineWorld 4) [97, 10, 10, 98, 99] [97, 10, 10, 98, 99].length
          = .ok ((w1, ([97, 10, 10, 98, 99].splitOn 10).getLast (splitOn_ne_nil 10 _),
              (([97, 10, 10, 98, 99].splitOn 10).getLast (splitOn_ne_nil 10 _)).length), log)
        ∧ onRead.scan 0 6 (lineWorld 4) [97, 10, 10, 98, 99] [97, 10, 10, 98, 99].length
          = .ok (w1, ([97, 10, 10, 98, 99].splitOn 10).getLast (splitOn_ne_nil 10 _),
              (([97, 10, 10, 98, 99].splitOn 10).getLast (splitOn_ne_nil 10 _)).length)
        ∧ log.length = [97, 10, 10, 98, 99].count 10
        ∧ w1.events = (lineWorld 4).events ++ es
        ∧ es.length = [97, 10, 10, 98, 99].count 10
        ∧ frames es
          = (([97, 10, 10, 98, 99].splitOn 10).dropLast).modifyHead
              (fun f => (mallocLineBuffer 4).take 0 ++ f)
        ∧ ∀ t ∈ log, t.guard = true ∧ t.tlenAfter < t.tlenBefore
            ∧ t.tlenAfter + t.pLen + 1 = t.tlenBefore
            ∧ t.tlenBefore ≤ [97, 10, 10, 98, 99].length :=
  scan_terminates (lineWorld 4) 0 [97, 10, 10, 98, 99] (mallocLineBuffer 4) 0 10 6
    rfl rfl rfl (by decide) (by decide)

end Nidium
